import Mathlib

/-!
# Verification of the poker-platform table engine

Shallow embedding of the poker engine found in `app/poker/cards.py`,
`app/poker/hand_evaluator.py`, `app/poker/table.py` and of the session layer
in `app/tables_api.py`.  Chip amounts (Python floats used as exact chip
counts) are modelled as rationals; Python exceptions are modelled with
`Except String`; in-place mutation of player objects is modelled by updating
the first matching element of the player list, which coincides with Python's
object-identity semantics because lookups (`get_player_by_id`,
`_player_by_seat`) return the first match.  Wall-clock time (`time.time()`)
is passed explicitly as a `now` parameter.  Write-only bookkeeping
(`current_hand_log`, `recent_hands`) is omitted: no claim reads it.
-/

namespace Poker

/-- `Suit` from `app/poker/cards.py` (an IntEnum with values 0..3). -/
inductive Suit where
  | clubs
  | diamonds
  | hearts
  | spades
deriving DecidableEq, Repr

/-- `Suit.short` from `app/poker/cards.py`. -/
def Suit.shortStr : Suit → String
  | .clubs => "♣"
  | .diamonds => "♦"
  | .hearts => "♥"
  | .spades => "♠"

/-- A card, `app/poker/cards.py`.  `Rank` is an IntEnum with values 2..14
(Ace = 14); we embed the rank as that numeric value. -/
structure Card where
  rank : Nat
  suit : Suit
deriving DecidableEq, Repr

/-- `Rank.short` from `app/poker/cards.py`; ranks outside 2..14 do not occur
on real cards (the Python enum makes them unrepresentable). -/
def rankShortStr (r : Nat) : String :=
  if r = 2 then "2" else if r = 3 then "3" else if r = 4 then "4"
  else if r = 5 then "5" else if r = 6 then "6" else if r = 7 then "7"
  else if r = 8 then "8" else if r = 9 then "9" else if r = 10 then "T"
  else if r = 11 then "J" else if r = 12 then "Q" else if r = 13 then "K"
  else if r = 14 then "A" else "?"

/-- `Card.__str__`:  rank short form followed by suit short form. -/
def Card.str (c : Card) : String :=
  rankShortStr c.rank ++ c.suit.shortStr

/-! ## Sorting helpers

Python's `sorted(...)` / `sorted(..., reverse=True)` on rank lists, embedded
as insertion sorts on `Nat`. -/

/-- Insert into a descending-sorted list. -/
def insertDesc (x : Nat) : List Nat → List Nat
  | [] => [x]
  | y :: ys => if x ≥ y then x :: y :: ys else y :: insertDesc x ys

/-- Sort a list of naturals in descending order. -/
def sortDesc (l : List Nat) : List Nat := l.foldr insertDesc []

/-- Insert into an ascending-sorted list. -/
def insertAsc (x : Nat) : List Nat → List Nat
  | [] => [x]
  | y :: ys => if x ≤ y then x :: y :: ys else y :: insertAsc x ys

/-- Sort a list of naturals in ascending order. -/
def sortAsc (l : List Nat) : List Nat := l.foldr insertAsc []

/-- Maximum of a list of naturals (`max(...)` in Python; 0 on `[]`,
which Python would reject — callers only use nonempty lists). -/
def listMax (l : List Nat) : Nat := l.foldl Nat.max 0

/-- Minimum of a nonempty list of naturals (`min(...)` in Python). -/
def listMin : List Nat → Nat
  | [] => 0
  | x :: xs => xs.foldl Nat.min x

/-! ## Hand evaluator, `app/poker/hand_evaluator.py` -/

/-- The `HAND_RANKS` dict: category name → numeric strength. -/
def handRanks (category : String) : Nat :=
  if category = "high_card" then 1
  else if category = "one_pair" then 2
  else if category = "two_pair" then 3
  else if category = "three_of_a_kind" then 4
  else if category = "straight" then 5
  else if category = "flush" then 6
  else if category = "full_house" then 7
  else if category = "four_of_a_kind" then 8
  else if category = "straight_flush" then 9
  else if category = "royal_flush" then 10
  else 0

/-- `card_values`: ranks sorted high → low. -/
def cardValues (cards : List Card) : List Nat :=
  sortDesc (cards.map (·.rank))

/-- `is_flush`: all five suits equal. -/
def isFlush (cards : List Card) : Bool × List Nat :=
  match cards.map (·.suit) with
  | [] => (true, cardValues cards)
  | s :: rest => if rest.all (· = s) then (true, cardValues cards) else (false, [])

/-- `is_straight`: distinct sorted ranks; the wheel A-2-3-4-5 counts as a
five-high straight. -/
def isStraight (cards : List Card) : Bool × Nat :=
  let ranks := sortAsc (cards.map (·.rank)).dedup
  if ranks = [2, 3, 4, 5, 14] then (true, 5)
  else if ranks.length ≠ 5 then (false, 0)
  else if listMax ranks - listMin ranks = 4 then (true, listMax ranks)
  else (false, 0)

/-- `evaluate_5`: evaluate exactly five cards, returning the ranking tuple
(here a `List Nat`, compared like a Python tuple). -/
def evaluate5 (cards : List Card) : List Nat :=
  let values := cardValues cards
  let ranks := cards.map (·.rank)
  let uniq := ranks.dedup
  let countValues := sortDesc (uniq.map (fun r => ranks.count r))
  let flush := (isFlush cards).1
  let flushValues := (isFlush cards).2
  let straight := (isStraight cards).1
  let highStraight := (isStraight cards).2
  if flush ∧ straight then
    if highStraight = 14 then [handRanks "royal_flush"]
    else [handRanks "straight_flush", highStraight]
  else if countValues.headD 0 = 4 then
    let four := (uniq.find? (fun r => ranks.count r = 4)).getD 0
    let kicker := listMax (ranks.filter (· ≠ four))
    [handRanks "four_of_a_kind", four, kicker]
  else if countValues = [3, 2] then
    let three := (uniq.find? (fun r => ranks.count r = 3)).getD 0
    let pair := (uniq.find? (fun r => ranks.count r = 2)).getD 0
    [handRanks "full_house", three, pair]
  else if flush then
    handRanks "flush" :: flushValues
  else if straight then
    [handRanks "straight", highStraight]
  else if countValues.headD 0 = 3 then
    let trips := (uniq.find? (fun r => ranks.count r = 3)).getD 0
    let kickers := sortDesc (ranks.filter (· ≠ trips))
    handRanks "three_of_a_kind" :: trips :: kickers
  else if countValues = [2, 2, 1] then
    let pairs := sortDesc (uniq.filter (fun r => ranks.count r = 2))
    let kicker := listMax (ranks.filter (fun r => ¬ pairs.contains r))
    (handRanks "two_pair" :: pairs) ++ [kicker]
  else if countValues = [2, 1, 1, 1] then
    let pair := (uniq.find? (fun r => ranks.count r = 2)).getD 0
    let kickers := sortDesc (ranks.filter (· ≠ pair))
    handRanks "one_pair" :: pair :: kickers
  else
    handRanks "high_card" :: values

/-- Python tuple comparison `<` on rank tuples: lexicographic, a strict
prefix is smaller. -/
def rankLt : List Nat → List Nat → Bool
  | [], [] => false
  | [], _ :: _ => true
  | _ :: _, [] => false
  | a :: as', b :: bs => a < b ∨ (a = b ∧ rankLt as' bs)

/-- `itertools.combinations` over a list: all k-element sublists in the
original (index-lexicographic) order. -/
def combinations {α : Type} : Nat → List α → List (List α)
  | 0, _ => [[]]
  | _ + 1, [] => []
  | k + 1, x :: xs => (combinations k xs).map (x :: ·) ++ combinations (k + 1) xs

/-- `best_hand_for_game(..., game_type="nlh")` / `best_hand`: argmax of
`evaluate_5` over all 5-of-7 combinations (first maximum kept, matching the
strict `rank > best_rank` update). -/
def bestHand (sevenCards : List Card) : Except String (List Nat × List Card) :=
  let step := fun (best : Option (List Nat × List Card)) (combo : List Card) =>
    let rank := evaluate5 combo
    match best with
    | none => some (rank, combo)
    | some (br, bc) => if rankLt br rank then some (rank, combo) else some (br, bc)
  match (combinations 5 sevenCards).foldl step none with
  | none => .error "Unable to determine best hand from the provided cards"
  | some best => .ok best

end Poker

namespace Poker

/-! ## Table engine state, `app/poker/table.py` -/

/-- The `street` string field of `Table`, as an enumeration. -/
inductive Street where
  | prehand
  | preflop
  | flop
  | turn
  | river
  | showdownSt
deriving DecidableEq, Repr

/-- The `Player` dataclass. -/
structure Player where
  id : Nat
  name : String
  seat : Nat
  holeCards : List Card := []
  inHand : Bool := true
  hasFolded : Bool := false
  stack : ℚ := 100
  committed : ℚ := 0
  allIn : Bool := false
  userId : Option Nat := none
  profilePictureUrl : Option String := none
deriving DecidableEq, Repr

/-- The `Table` engine state.  The deck is the list of cards still to be
dealt (the source pops from the end of a shuffled array; since the shuffle
is a CSPRNG permutation we model the post-shuffle deck as an arbitrary list
dealt from the head).  `gameType` does not appear in `app/poker/table.py`
but is required by its callers (`app/tables_api.py` reads
`engine_table.game_type` and constructs `Table(..., game_type=...)`) and by
the run-out tests; it is modelled from the spec (game-kind ∈ NLH/PLO).
`runoutRequestedBy`, `runoutRequestedCount` and `runoutAcceptedBy` likewise
model the run-it-twice negotiation state that the spec describes and the
tests reference. -/
structure Table where
  maxSeats : Nat := 6
  players : List Player := []
  deck : List Card := []
  board : List Card := []
  handNumber : Nat := 0
  pot : ℚ := 0
  currentBet : ℚ := 0
  street : Street := .prehand
  dealerSeat : Option Nat := some 0
  dealerButtonSeat : Option Nat := none
  smallBlindSeat : Option Nat := none
  bigBlindSeat : Option Nat := none
  smallBlind : ℚ := 1
  bigBlind : ℚ := 2
  nextToActSeat : Option Nat := none
  actionDeadline : Option ℚ := none
  actionTimeLimit : ℚ := 30
  actionClosingSeat : Option Nat := none
  bombPotEveryNHands : Option Nat := none
  bombPotAmount : Option ℚ := none
  nextPlayerId : Nat := 1
  handStartStacks : List (Nat × ℚ) := []
  pendingLeaveUserIds : List Nat := []
  gameType : String := "nlh"
  runoutRequestedBy : Option Nat := none
  runoutRequestedCount : Option Nat := none
  runoutAcceptedBy : List Nat := []
deriving DecidableEq, Repr

instance : Inhabited Table := ⟨{}⟩

/-- Update the first element satisfying `pred` (Python mutates the single
object returned by a first-match lookup). -/
def updateFirst {α : Type} (pred : α → Bool) (f : α → α) : List α → List α
  | [] => []
  | x :: xs => if pred x then f x :: xs else x :: updateFirst pred f xs

/-- `Deck.deal_one`: take the next card or fail on an empty deck. -/
def dealOne : List Card → Except String (Card × List Card)
  | [] => .error "Deck is empty"
  | c :: rest => .ok (c, rest)

/-- `Table.get_player_by_id`: first player with the given id. -/
def getPlayerById (ps : List Player) (pid : Nat) : Except String Player :=
  match ps.find? (fun p => p.id = pid) with
  | some p => .ok p
  | none => .error "No player with that id"

/-- `Table._player_by_seat`: first player in the given seat. -/
def playerBySeat (ps : List Player) (seat : Nat) : Except String Player :=
  match ps.find? (fun p => p.seat = seat) with
  | some p => .ok p
  | none => .error "No player in that seat"

/-- The sorted list of occupied seats (`sorted(p.seat for p in players)`). -/
def occupiedSeats (ps : List Player) : List Nat :=
  sortAsc (ps.map (·.seat))

/-- `Table._next_seat`: successor seat in the sorted occupied-seat cycle. -/
def nextSeat (ps : List Player) (seat : Nat) : Except String Nat :=
  let occupied := occupiedSeats ps
  if occupied.contains seat then
    .ok (occupied.getD ((occupied.indexOf seat + 1) % occupied.length) 0)
  else
    .error "Seat not occupied"

/-- `Table._previous_seat`: predecessor seat in the sorted occupied-seat
cycle (Python index -1 wraps to the end). -/
def prevSeat (ps : List Player) (seat : Nat) : Except String Nat :=
  let occupied := occupiedSeats ps
  if occupied.contains seat then
    .ok (occupied.getD ((occupied.indexOf seat + occupied.length - 1) % occupied.length) 0)
  else
    .error "Seat not occupied"

/-- A player is eligible to act: in hand, not folded, not all-in. -/
def eligible (p : Player) : Bool :=
  p.inHand ∧ ¬ p.hasFolded ∧ ¬ p.allIn

/-- Loop body of `Table._next_player_to_act`, with fuel (the Python loop
visits each occupied seat at most once before hitting the start seat). -/
def nextToActLoop (ps : List Player) (startSeat : Nat) :
    Nat → Nat → Except String (Option Nat)
  | 0, _ => .ok none
  | fuel + 1, seat => do
    let s ← nextSeat ps seat
    let p ← playerBySeat ps s
    if eligible p then .ok (some s)
    else if s = startSeat then .ok none
    else nextToActLoop ps startSeat fuel s

/-- `Table._next_player_to_act`: next eligible seat strictly after
`startSeat`, or `none` after a full orbit. -/
def nextPlayerToAct (ps : List Player) (startSeat : Nat) : Except String (Option Nat) :=
  if ps.isEmpty then .ok none
  else nextToActLoop ps startSeat ps.length startSeat

/-- Loop body of `Table._previous_active_seat`. -/
def prevActiveLoop (ps : List Player) (startSeat : Nat) :
    Nat → Nat → Except String (Option Nat)
  | 0, _ => .ok none
  | fuel + 1, seat => do
    let s ← prevSeat ps seat
    let p ← playerBySeat ps s
    if eligible p then .ok (some s)
    else if s = startSeat then .ok none
    else prevActiveLoop ps startSeat fuel s

/-- `Table._previous_active_seat`: previous eligible seat before the given
one (`none` in → `none` out). -/
def prevActiveSeat (ps : List Player) (startSeat : Option Nat) :
    Except String (Option Nat) :=
  match startSeat with
  | none => .ok none
  | some s =>
    if ps.isEmpty then .ok none
    else prevActiveLoop ps s ps.length s

/-- `Table._betting_round_settled`: every eligible player has matched the
current bet. -/
def bettingRoundSettled (t : Table) : Bool :=
  t.players.all (fun p => ¬ p.inHand ∨ p.hasFolded ∨ p.allIn ∨ p.committed = t.currentBet)

/-- `Table._set_action_deadline` applied to a table whose `nextToActSeat`
is already set. -/
def setActionDeadline (t : Table) (now : ℚ) : Table :=
  match t.nextToActSeat with
  | none => { t with actionDeadline := none }
  | some _ => { t with actionDeadline := some (now + t.actionTimeLimit) }

/-- `Table._advance_turn`. -/
def advanceTurn (t : Table) (now : ℚ) : Except String Table := do
  if t.players.all (fun p => p.hasFolded ∨ p.allIn) then
    .ok { t with nextToActSeat := none, actionDeadline := none }
  else if t.actionClosingSeat = t.nextToActSeat ∧ bettingRoundSettled t then
    .ok { t with nextToActSeat := none, actionDeadline := none }
  else
    match t.nextToActSeat with
    | none => .error "Seat not occupied"
    | some nta => do
      let nextOpt ← nextPlayerToAct t.players nta
      match nextOpt with
      | none => .ok { t with nextToActSeat := none, actionDeadline := none }
      | some s => .ok (setActionDeadline { t with nextToActSeat := some s } now)

end Poker

namespace Poker

/-! ## Betting actions, `Table._apply_action` -/

/-- The mutation applied to the acting player and the table by one action
branch of `_apply_action`, before the closing-seat adjustment and
`_advance_turn`.  Returns the updated acting player together with the
updated table (the player list inside it already reflects the update). -/
def applyActionCore (t : Table) (acting : Player) (action : String)
    (amount : Option ℚ) : Except String (Player × Table) :=
  if action = "fold" then
    let acting' := { acting with hasFolded := true, inHand := false }
    .ok (acting', { t with players := updateFirst (fun p => p.id = acting.id) (fun _ => acting') t.players })
  else if action = "check" then
    if acting.committed ≠ t.currentBet then .error "Cannot check when facing a bet"
    else .ok (acting, t)
  else if action = "call" then
    let toCall := t.currentBet - acting.committed
    if toCall ≤ 0 then .ok (acting, t)
    else
      let putIn := min acting.stack toCall
      let acting' := { acting with
        stack := acting.stack - putIn,
        committed := acting.committed + putIn,
        allIn := acting.stack - putIn = 0 ∨ acting.allIn }
      .ok (acting', { t with
        players := updateFirst (fun p => p.id = acting.id) (fun _ => acting') t.players,
        pot := t.pot + putIn })
  else if action = "raise_to" then
    match amount with
    | none => .error "amount required for raise_to"
    | some amt =>
      if amt ≤ t.currentBet then
        .error "raise_to amount must be greater than current bet"
      else
        let toPutTotal := amt - acting.committed
        if toPutTotal ≤ 0 then .error "Player has already committed that much"
        else
          let putIn := min acting.stack toPutTotal
          let acting' := { acting with
            stack := acting.stack - putIn,
            committed := acting.committed + putIn,
            allIn := acting.stack - putIn = 0 ∨ acting.allIn }
          .ok (acting', { t with
            players := updateFirst (fun p => p.id = acting.id) (fun _ => acting') t.players,
            pot := t.pot + putIn,
            currentBet := max t.currentBet (acting.committed + putIn),
            actionClosingSeat := some acting.seat })
  else .error "Unknown action"

/-- `Table._apply_action`: validation, the action branch, the closing-seat
adjustment, then `_advance_turn`.  (The Python not-your-turn message
interpolates the player name with an apostrophe; the exact text is not
load-bearing for any claim.) -/
def applyAction (t : Table) (playerId : Nat) (action : String)
    (amount : Option ℚ) (now : ℚ) : Except String Table := do
  match t.nextToActSeat with
  | none => .error "No player is set to act"
  | some nta => do
    let acting ← getPlayerById t.players playerId
    if acting.seat ≠ nta then .error "Not that players turn to act"
    else if acting.hasFolded ∨ ¬ acting.inHand ∨ acting.allIn then
      .error "Player cannot act (folded or all-in)"
    else do
      let (acting', t₁) ← applyActionCore t acting action amount
      let t₂ ←
        if t₁.actionClosingSeat = some acting.seat ∧ (acting'.hasFolded ∨ acting'.allIn) then do
          let prevOpt ← prevActiveSeat t₁.players (some acting.seat)
          pure { t₁ with actionClosingSeat := prevOpt }
        else
          pure t₁
      advanceTurn t₂ now

/-- `Table.player_action`: the public wrapper over `_apply_action`. -/
def playerAction (t : Table) (playerId : Nat) (action : String)
    (amount : Option ℚ) (now : ℚ) : Except String Table :=
  applyAction t playerId action amount now

/-- `Table.enforce_action_timeout`: auto-fold the player on the clock once
the deadline has passed; never propagates an error. -/
def enforceActionTimeout (t : Table) (now : ℚ) : Option String × Table :=
  match t.nextToActSeat, t.actionDeadline with
  | none, _ => (none, t)
  | some _, none => (none, t)
  | some seat, some deadline =>
    if now < deadline then (none, t)
    else
      match playerBySeat t.players seat with
      | .error _ => (none, { t with nextToActSeat := none, actionDeadline := none })
      | .ok p =>
        match applyAction t p.id "fold" none now with
        | .error _ => (none, { t with nextToActSeat := none, actionDeadline := none })
        | .ok t' => (some "fold", t')

/-! ## Blinds, bomb pots and hand start -/

/-- `Table._post_blind` on the first player occupying `seat`: commit
`min(stack, amount)`, marking all-in when the stack empties.  Returns the
posted amount. -/
def postBlindBySeat (t : Table) (seat : Nat) (amount : ℚ) : ℚ × Table :=
  match t.players.find? (fun p => p.seat = seat) with
  | none => (0, t)  -- unreachable: callers fetch the player first
  | some p =>
    let post := min p.stack amount
    let p' := { p with
      stack := p.stack - post,
      committed := p.committed + post,
      allIn := p.stack - post = 0 ∨ p.allIn }
    (post, { t with
      players := updateFirst (fun q => q.seat = seat) (fun _ => p') t.players,
      pot := t.pot + post })

/-- `Table.post_blinds`: post SB from the dealer seat and BB from the next
seat, set the blind markers, raise the current bet to the big blind, give
the big blind the closing option, and put the first seat after the big
blind on the clock. -/
def postBlinds (t : Table) (now : ℚ) : Except String Table := do
  if t.players.length < 2 then .error "Need at least 2 players for blinds"
  else do
    match t.dealerSeat with
    | none => .error "Seat not occupied"
    | some dealer => do
      let sbPlayer ← playerBySeat t.players dealer
      let bbSeat ← nextSeat t.players dealer
      let bbPlayer ← playerBySeat t.players bbSeat
      let t₁ := (postBlindBySeat t sbPlayer.seat t.smallBlind).2
      let t₂ := (postBlindBySeat t₁ bbPlayer.seat t.bigBlind).2
      let t₃ := { t₂ with
        smallBlindSeat := some sbPlayer.seat,
        bigBlindSeat := some bbPlayer.seat,
        currentBet := max t₂.currentBet t₂.bigBlind }
      let ntaOpt ← nextPlayerToAct t₃.players bbPlayer.seat
      let t₄ := { t₃ with
        nextToActSeat := ntaOpt,
        actionClosingSeat := some bbPlayer.seat }
      .ok (setActionDeadline t₄ now)

/-- Loop of `Table._apply_bomb_pot_if_needed`: every player contributes
`min(stack, amount)`. -/
def bombPotContribute (amount : ℚ) : List Player → List Player × ℚ
  | [] => ([], 0)
  | p :: rest =>
    let contribution := min p.stack amount
    let p' := { p with
      stack := p.stack - contribution,
      committed := p.committed + contribution,
      allIn := p.stack - contribution = 0 ∨ p.allIn }
    let (rest', total) := bombPotContribute amount rest
    (p' :: rest', contribution + total)

/-- `Table._apply_bomb_pot_if_needed` (Python truthiness: a configured
cadence or amount of 0 disables the bomb pot). -/
def applyBombPotIfNeeded (t : Table) : Table :=
  match t.bombPotEveryNHands, t.bombPotAmount with
  | some n, some amount =>
    if n = 0 ∨ amount = 0 then t
    else if t.handNumber % n ≠ 0 then t
    else
      let (players', total) := bombPotContribute amount t.players
      { t with
        players := players',
        pot := t.pot + total,
        currentBet := max t.currentBet amount }
  | _, _ => t

/-- One dealing pass of `start_new_hand`: append one card from the deck to
each player's hole cards, in seating-list order. -/
def dealOneCardToEach : List Player → List Card → Except String (List Player × List Card)
  | [], deck => .ok ([], deck)
  | _ :: _, [] => .error "Deck is empty"
  | p :: rest, c :: deck => do
    let (rest', deck') ← dealOneCardToEach rest deck
    .ok ({ p with holeCards := p.holeCards ++ [c] } :: rest', deck')

/-- The Python dict comprehension `{p.id: p.stack for p in players}`:
insertion keeps the first position of a key, later writes overwrite. -/
def dictInsert : List (Nat × ℚ) → Nat → ℚ → List (Nat × ℚ)
  | [], k, v => [(k, v)]
  | (k', v') :: rest, k, v =>
    if k' = k then (k, v) :: rest else (k', v') :: dictInsert rest k v

/-- The `hand_start_stacks` snapshot. -/
def stackSnapshot (ps : List Player) : List (Nat × ℚ) :=
  ps.foldl (fun d p => dictInsert d p.id p.stack) []

/-- The dealer-button selection block of `start_new_hand`: the lowest
occupied seat on the first hand or when the previous button seat emptied,
otherwise the next occupied seat. -/
def chooseDealerSeat (players : List Player) (handNumber : Nat)
    (prevDealer : Option Nat) : Except String Nat :=
  let occupied := occupiedSeats players
  let prevValid : Bool :=
    match prevDealer with
    | some d => occupied.contains d
    | none => false
  if handNumber = 1 ∨ prevValid = false then .ok (occupied.headD 0)
  else
    match prevDealer with
    | some d => nextSeat players d
    | none => .ok (occupied.headD 0)

/-- `Table.start_new_hand`.  `shuffledDeck` stands for the deck after
`Deck.reset()` (a CSPRNG shuffle of the 52-card universe). -/
def startNewHand (t : Table) (shuffledDeck : List Card) (now : ℚ) :
    Except String Table := do
  if t.players.length < 2 then .error "Need at least 2 players to start a hand"
  else do
    let t₁ := { t with
      handNumber := t.handNumber + 1,
      deck := shuffledDeck,
      board := [],
      pot := 0,
      currentBet := 0,
      street := Street.preflop,
      smallBlindSeat := none,
      bigBlindSeat := none,
      dealerButtonSeat := none,
      actionClosingSeat := none,
      handStartStacks := stackSnapshot t.players }
    let dealer ← chooseDealerSeat t₁.players t₁.handNumber t₁.dealerSeat
    let t₂ := { t₁ with
      dealerSeat := some dealer,
      dealerButtonSeat := some dealer,
      players := t₁.players.map (fun p => { p with
        holeCards := [],
        inHand := true,
        hasFolded := false,
        committed := 0,
        allIn := false }) }
    let t₃ := applyBombPotIfNeeded t₂
    let (ps₁, deck₁) ← dealOneCardToEach t₃.players t₃.deck
    let (ps₂, deck₂) ← dealOneCardToEach ps₁ deck₁
    postBlinds { t₃ with players := ps₂, deck := deck₂ } now

end Poker

namespace Poker

/-! ## Street transitions -/

/-- `Table.reset_committed_for_new_street`: zero the current bet and all
committed amounts, put the first eligible seat after the button on the
clock, and set the closing seat to the previous eligible seat before it. -/
def resetCommittedForNewStreet (t : Table) (now : ℚ) : Except String Table := do
  let players' := t.players.map (fun (p : Player) => { p with committed := 0 })
  match t.dealerSeat with
  | none => .error "Seat not occupied"
  | some dealer => do
    let ntaOpt ← nextPlayerToAct players' dealer
    let closingOpt ← prevActiveSeat players' ntaOpt
    let t₂ : Table :=
      { t with
        currentBet := 0
        players := players'
        nextToActSeat := ntaOpt
        actionClosingSeat := closingOpt }
    .ok (setActionDeadline t₂ now)

/-- `Table.deal_flop`. -/
def dealFlop (t : Table) (now : ℚ) : Except String Table := do
  if t.street ≠ Street.preflop then .error "Flop can only be dealt after preflop betting"
  else do
    let (c₁, d₁) ← dealOne t.deck
    let (c₂, d₂) ← dealOne d₁
    let (c₃, d₃) ← dealOne d₂
    resetCommittedForNewStreet
      { t with board := t.board ++ [c₁, c₂, c₃], deck := d₃, street := Street.flop } now

/-- `Table.deal_turn`. -/
def dealTurn (t : Table) (now : ℚ) : Except String Table := do
  if t.street ≠ Street.flop then .error "Turn can only be dealt after flop"
  else do
    let (c, d) ← dealOne t.deck
    resetCommittedForNewStreet
      { t with board := t.board ++ [c], deck := d, street := Street.turn } now

/-- `Table.deal_river`. -/
def dealRiver (t : Table) (now : ℚ) : Except String Table := do
  if t.street ≠ Street.turn then .error "River can only be dealt after turn"
  else do
    let (c, d) ← dealOne t.deck
    resetCommittedForNewStreet
      { t with board := t.board ++ [c], deck := d, street := Street.river } now

/-! ## Showdown -/

/-- Enumerate a list with indices starting at `n`. -/
def enumFrom {α : Type} (n : Nat) : List α → List (Nat × α)
  | [] => []
  | x :: xs => (n, x) :: enumFrom (n + 1) xs

/-- `Table.determine_winner`, tracking winners by their position in the
player list (Python tracks the player objects themselves; positions are the
faithful pure counterpart of object identity).  Returns the winning
positions and the best rank. -/
def determineWinner (t : Table) : Except String (List Nat × Option (List Nat)) := do
  let active := (enumFrom 0 t.players).filter (fun ip => ip.2.inHand ∧ ¬ ip.2.hasFolded)
  active.foldlM
    (fun (acc : List Nat × Option (List Nat)) ip => do
      let (rank, _) ← bestHand (ip.2.holeCards ++ t.board)
      match acc.2 with
      | none => .ok ([ip.1], some rank)
      | some best =>
        if rankLt best rank then .ok ([ip.1], some rank)
        else if rank = best then .ok (acc.1 ++ [ip.1], some best)
        else .ok acc)
    (([] : List Nat), (none : Option (List Nat)))

/-- Increase the stack of the player at position `i` by `share`. -/
def addStackAt (share : ℚ) : List Player → Nat → List Player
  | [], _ => []
  | p :: rest, 0 => { p with stack := p.stack + share } :: rest
  | p :: rest, i + 1 => p :: addStackAt share rest i

/-- `Table.showdown`: evaluate, pay the pot out in equal shares to the
winners, set the street to showdown.  Returns the winning positions. -/
def showdown (t : Table) : Except String (List Nat × Table) := do
  let (winners, _) ← determineWinner t
  if winners ≠ [] ∧ 0 < t.pot then
    let share := t.pot / winners.length
    let players' := winners.foldl (addStackAt share) t.players
    .ok (winners, { t with players := players', pot := 0, street := Street.showdownSt })
  else
    .ok (winners, { t with street := Street.showdownSt })

/-! ## Run-it-twice negotiation

None of `request_runouts`, `respond_runouts`, `resolve_all_in_showdown`
exists in `app/poker/table.py`; only the tests
(`tests/test_runout_game_type_enforcement.py`) call them, and the spec
(§4.2 run-it-twice, S7) describes them.  They are modelled from the spec
below. -/

/-- Modelled from the spec: `Table.request_runouts` is missing from
`app/poker/table.py`.  Per the spec, every run-out operation on a table
whose game-kind is not NLH fails with "Run-outs are only supported for
NLH"; on an NLH table the negotiation is valid only when all remaining
players are all-in before the river and the proposed count is 2 or 3. -/
def requestRunouts (t : Table) (playerId : Nat) (runouts : Nat) :
    Except String Table :=
  if t.gameType.toLower ≠ "nlh" then .error "Run-outs are only supported for NLH"
  else
    let remaining := t.players.filter (fun p => p.inHand ∧ ¬ p.hasFolded)
    if ¬ (remaining ≠ [] ∧ remaining.all (·.allIn)) then
      .error "Run-outs require all remaining players to be all-in"
    else if t.street = Street.river ∨ t.street = Street.showdownSt then
      .error "Run-outs must be requested before the river"
    else if runouts ≠ 2 ∧ runouts ≠ 3 then
      .error "Run-out count must be 2 or 3"
    else
      .ok { t with
        runoutRequestedBy := some playerId,
        runoutRequestedCount := some runouts,
        runoutAcceptedBy := [] }

/-- Modelled from the spec: `Table.respond_runouts` is missing from
`app/poker/table.py`.  The non-NLH gate comes first; a rejection cancels
the pending request, an acceptance is recorded. -/
def respondRunouts (t : Table) (playerId : Nat) (accept : Bool) :
    Except String Table :=
  if t.gameType.toLower ≠ "nlh" then .error "Run-outs are only supported for NLH"
  else
    match t.runoutRequestedBy with
    | none => .error "No run-out request is pending"
    | some _ =>
      if accept then
        .ok { t with runoutAcceptedBy := t.runoutAcceptedBy ++ [playerId] }
      else
        .ok { t with
          runoutRequestedBy := none,
          runoutRequestedCount := none,
          runoutAcceptedBy := [] }

/-- Deal one completed board for a run-out: extend the current board to five
cards from the deck. -/
def dealRunoutBoard (board : List Card) (deck : List Card) :
    Except String (List Card × List Card) :=
  match 5 - board.length, deck with
  | 0, d => .ok (board, d)
  | _ + 1, [] => .error "Deck is empty"
  | _ + 1, c :: d => dealRunoutBoard (board ++ [c]) d

/-- Modelled from the spec: `Table.resolve_all_in_showdown` is missing from
`app/poker/table.py`.  After the non-NLH gate, deal the agreed number of
independent board completions, split the pot into that many equal shares,
and award each share to the winners of its board. -/
def resolveAllInShowdown (t : Table) : Except String Table :=
  if t.gameType.toLower ≠ "nlh" then .error "Run-outs are only supported for NLH"
  else
    let count := t.runoutRequestedCount.getD 1
    let share := t.pot / count
    let rec runBoards (k : Nat) (deck : List Card) (players : List Player) :
        Except String (List Player × List Card) :=
      match k with
      | 0 => .ok (players, deck)
      | k + 1 => do
        let (fullBoard, deck') ← dealRunoutBoard t.board deck
        let (winners, _) ← determineWinner { t with players := players, board := fullBoard }
        let players' :=
          if winners ≠ [] then
            winners.foldl (addStackAt (share / winners.length)) players
          else players
        runBoards k deck' players'
    match runBoards count t.deck t.players with
    | .error e => .error e
    | .ok (players', deck') =>
      .ok { t with
        players := players',
        deck := deck',
        pot := 0,
        street := Street.showdownSt,
        runoutRequestedBy := none,
        runoutRequestedCount := none,
        runoutAcceptedBy := [] }

end Poker

namespace Poker

/-! ## Seating -/

/-- `Table.add_player`. -/
def addPlayer (t : Table) (name : String) (startingStack : ℚ)
    (userId : Option Nat) (profilePictureUrl : Option String)
    (seat : Option Nat) : Except String (Player × Table) := do
  if t.players.length ≥ t.maxSeats then .error "Table is full"
  else do
    let takenSeats := t.players.map (·.seat)
    let chosenSeat ←
      match seat with
      | some s =>
        if s ≥ t.maxSeats then .error "Invalid seat number"
        else if takenSeats.contains s then .error "Seat already occupied"
        else pure s
      | none =>
        match (List.range t.maxSeats).find? (fun s => ¬ takenSeats.contains s) with
        | some s => pure s
        | none => .error "No available seats"
    let newPlayer : Player := {
      id := t.nextPlayerId,
      name := name,
      seat := chosenSeat,
      stack := startingStack,
      userId := userId,
      profilePictureUrl := profilePictureUrl }
    .ok (newPlayer, { t with
      nextPlayerId := t.nextPlayerId + 1,
      players := t.players ++ [newPlayer] })

/-- Remove the first player with the given user id from a list. -/
def popFirstByUser (uid : Nat) : List Player → Option (Player × List Player)
  | [] => none
  | p :: rest =>
    if p.userId = some uid then some (p, rest)
    else
      match popFirstByUser uid rest with
      | none => none
      | some (r, rest') => some (r, p :: rest')

/-- `Table.remove_player_by_user`: pop the first matching player and clear
every position marker that referenced the vacated seat. -/
def removePlayerByUser (t : Table) (uid : Nat) : Except String (Player × Table) :=
  match popFirstByUser uid t.players with
  | none => .error "No player for that user id"
  | some (removed, players') =>
    let t₁ := { t with players := players' }
    let t₂ := { t₁ with
      dealerSeat := if t₁.dealerSeat = some removed.seat then none else t₁.dealerSeat,
      dealerButtonSeat :=
        if t₁.dealerButtonSeat = some removed.seat then none else t₁.dealerButtonSeat,
      smallBlindSeat :=
        if t₁.smallBlindSeat = some removed.seat then none else t₁.smallBlindSeat,
      bigBlindSeat :=
        if t₁.bigBlindSeat = some removed.seat then none else t₁.bigBlindSeat,
      nextToActSeat :=
        if t₁.nextToActSeat = some removed.seat then none else t₁.nextToActSeat }
    let t₃ :=
      if t₂.nextToActSeat = none then { t₂ with actionDeadline := none } else t₂
    .ok (removed, t₃)

/-! ## Per-viewer state frames, `app/tables_api.py` -/

/-- The `PlayerState` schema fields produced by `_table_state_for_viewer`
(the `sitting_out` field reads `getattr(p, "sitting_out", False)`; the
engine `Player` has no such attribute, so it is always `False`). -/
structure PlayerState where
  id : Nat
  name : String
  seat : Nat
  stack : ℚ
  committed : ℚ
  sittingOut : Bool
  inHand : Bool
  hasFolded : Bool
  allIn : Bool
  holeCards : List String
  userId : Option Nat
  profilePictureUrl : Option String
deriving DecidableEq, Repr

/-- The per-player rendering inside `_table_state_for_viewer`: hole cards
are cleartext when the seat is shared (`user_id is None`) or owned by the
viewer, and the placeholder "XX" per card otherwise. -/
def playerStateFor (viewerUserId : Option Nat) (p : Player) : PlayerState :=
  { id := p.id,
    name := p.name,
    seat := p.seat,
    stack := p.stack,
    committed := p.committed,
    sittingOut := false,
    inHand := p.inHand,
    hasFolded := p.hasFolded,
    allIn := p.allIn,
    holeCards :=
      if p.userId = none ∨ p.userId = viewerUserId then
        p.holeCards.map Card.str
      else
        List.replicate p.holeCards.length "XX",
    userId := p.userId,
    profilePictureUrl := p.profilePictureUrl }

/-- The `TableState` frame computed by `_table_state_for_viewer` (the
`recent_hands` log is omitted as write-only bookkeeping). -/
structure TableStateView where
  id : Nat
  handNumber : Nat
  street : Street
  pot : ℚ
  board : List String
  currentBet : ℚ
  nextToActSeat : Option Nat
  actionDeadline : Option ℚ
  dealerButtonSeat : Option Nat
  smallBlindSeat : Option Nat
  bigBlindSeat : Option Nat
  smallBlind : ℚ
  bigBlind : ℚ
  gameType : String
  players : List PlayerState
deriving DecidableEq, Repr

/-- `_table_state_for_viewer` from `app/tables_api.py`. -/
def tableStateForViewer (tableId : Nat) (t : Table) (viewerUserId : Option Nat) :
    TableStateView :=
  { id := tableId,
    handNumber := t.handNumber,
    street := t.street,
    pot := t.pot,
    board := t.board.map Card.str,
    currentBet := t.currentBet,
    nextToActSeat := t.nextToActSeat,
    actionDeadline := t.actionDeadline,
    dealerButtonSeat := t.dealerButtonSeat,
    smallBlindSeat := t.smallBlindSeat,
    bigBlindSeat := t.bigBlindSeat,
    smallBlind := t.smallBlind,
    bigBlind := t.bigBlind,
    gameType := t.gameType,
    players := t.players.map (playerStateFor viewerUserId) }

/-! ## Sessions, wallets and the leave flow, `app/tables_api.py` -/

/-- Python `int(round(x))`: round half to even. -/
def pyRound (q : ℚ) : ℤ :=
  let f : ℤ := ⌊q⌋
  let frac := q - f
  if frac < 1 / 2 then f
  else if 1 / 2 < frac then f + 1
  else if f % 2 = 0 then f else f + 1

/-- A `TableSession` row (`app/models.py`): `buy_in` and `cash_out` are
integer columns; `closed` stands for `closed_at` being set.  Rows are kept
in creation order. -/
structure SessionRow where
  tableId : Nat
  userId : Nat
  buyIn : ℤ
  cashOut : Option ℤ := none
  profitLoss : Option ℤ := none
  closed : Bool := false
deriving DecidableEq, Repr

/-- The persistent state the leave flow touches: the engine, the wallet
balances (`User.balance`) and the session ledger. -/
structure World where
  engine : Table
  wallets : List (Nat × ℚ)
  sessions : List SessionRow
deriving DecidableEq, Repr

/-- Look up a wallet balance. -/
def walletLookup (ws : List (Nat × ℚ)) (uid : Nat) : Option ℚ :=
  (ws.find? (fun kv => kv.1 = uid)).map (·.2)

/-- Credit a wallet (`user.balance += delta`). -/
def walletCredit (ws : List (Nat × ℚ)) (uid : Nat) (delta : ℚ) : List (Nat × ℚ) :=
  updateFirst (fun kv => kv.1 = uid) (fun kv => (kv.1, kv.2 + delta)) ws

/-- `_active_session`: the most recently created open session for the
(table, user) pair. -/
def activeSession (ss : List SessionRow) (tid uid : Nat) : Option SessionRow :=
  (ss.filter (fun s => s.tableId = tid ∧ s.userId = uid ∧ s.cashOut = none)).getLast?

/-- Update the last element satisfying `pred`. -/
def updateLast {α : Type} (pred : α → Bool) (f : α → α) (l : List α) : List α :=
  (updateFirst pred f l.reverse).reverse

/-- `_finalize_session`: close the open session with
`cash_out = int(round(stack))` and the corresponding profit/loss; a missing
open session is a no-op. -/
def finalizeSession (ss : List SessionRow) (tid uid : Nat) (cashOut : ℚ) :
    List SessionRow :=
  match activeSession ss tid uid with
  | none => ss
  | some _ =>
    let payout := pyRound cashOut
    updateLast (fun s => s.tableId = tid ∧ s.userId = uid ∧ s.cashOut = none)
      (fun s => { s with
        cashOut := some payout,
        profitLoss := some (payout - s.buyIn),
        closed := true }) ss

/-- The response of the leave endpoint (`LeaveTableResponse`). -/
structure LeaveResp where
  tableId : Nat
  seat : Nat
  returnedAmount : Option ℚ
  pending : Bool := false
deriving DecidableEq, Repr

/-- `leave_table` from `app/tables_api.py`, after the membership checks
(authorization is out of scope of the engine claims).  During an active
hand the user is only recorded in `pending_leave_user_ids`; otherwise they
are removed, their stack is credited to their wallet and their session is
finalized. -/
def leaveTable (w : World) (tableId : Nat) (uid : Nat) :
    Except String (LeaveResp × World) := do
  if w.engine.players.isEmpty then .error "Table is already empty"
  else
    match w.engine.players.find? (fun p => p.userId = some uid) with
    | none => .error "You are not seated at this table"
    | some player =>
      let inActiveHand :=
        w.engine.street ≠ Street.prehand ∧ w.engine.street ≠ Street.showdownSt ∧
          w.engine.nextToActSeat ≠ none
      if inActiveHand then
        let pending' :=
          if w.engine.pendingLeaveUserIds.contains uid then w.engine.pendingLeaveUserIds
          else w.engine.pendingLeaveUserIds ++ [uid]
        .ok ({ tableId := tableId, seat := player.seat, returnedAmount := none,
               pending := true },
             { w with engine := { w.engine with pendingLeaveUserIds := pending' } })
      else do
        let (removed, engine') ← removePlayerByUser w.engine uid
        match walletLookup w.wallets uid with
        | none => .error "User not found"
        | some _ =>
          let wallets' := walletCredit w.wallets uid removed.stack
          let sessions' := finalizeSession w.sessions tableId uid removed.stack
          .ok ({ tableId := tableId, seat := removed.seat,
                 returnedAmount := some removed.stack, pending := false },
               { engine := engine', wallets := wallets', sessions := sessions' })

/-- One iteration of the `_process_pending_leavers` loop for a single
pending user id. -/
def processLeaver (tableId : Nat) (w : World) (uid : Nat) : World :=
  match removePlayerByUser w.engine uid with
  | .error _ =>
    { w with engine :=
        { w.engine with pendingLeaveUserIds := w.engine.pendingLeaveUserIds.erase uid } }
  | .ok (removed, engine') =>
    let wallets' :=
      match walletLookup w.wallets uid with
      | none => w.wallets
      | some _ => walletCredit w.wallets uid removed.stack
    let sessions' := finalizeSession w.sessions tableId uid removed.stack
    { engine := { engine' with pendingLeaveUserIds := engine'.pendingLeaveUserIds.erase uid },
      wallets := wallets',
      sessions := sessions' }

/-- `_process_pending_leavers` from `app/tables_api.py`: after a hand
finalizes, stand up everyone who clicked leave during the hand (the Python
set is iterated over a snapshot; its iteration order is modelled by the
list order, and the per-user effects are independent). -/
def processPendingLeavers (tableId : Nat) (w : World) : World :=
  if w.engine.pendingLeaveUserIds.isEmpty then w
  else w.engine.pendingLeaveUserIds.foldl (processLeaver tableId) w

end Poker

namespace Poker

/-! ## Concrete fixtures used by scenario theorems -/

/-- The ordered 52-card universe produced by `Deck.reset` before the
shuffle; any permutation may be dealt, and no chip-level claim depends on
which cards arrive. -/
def fullDeck : List Card :=
  (([Suit.clubs, Suit.diamonds, Suit.hearts, Suit.spades].map (fun s =>
    (List.range 13).map (fun i => Card.mk (i + 2) s))).flatten)

/-- Result extractor for concrete runs (the error case never occurs where
this is used; every use is paired with an `isOkResult` fact). -/
def okTableD (r : Except String Table) : Table :=
  match r with
  | .ok t => t
  | .error _ => {}

/-- Whether an `Except` result is a success. -/
def isOkResult {α : Type} : Except String α → Bool
  | .ok _ => true
  | .error _ => false

/-! ## Rank-tuple order lemmas (for C4) -/

lemma rankLt_cons_iff (a b : Nat) (as' bs : List Nat) :
    rankLt (a :: as') (b :: bs) = true ↔ a < b ∨ (a = b ∧ rankLt as' bs = true) := by
  simp [rankLt]

lemma rankLt_irrefl (l : List Nat) : rankLt l l = false := by
  induction l with
  | nil => rfl
  | cons a as' ih => simp [rankLt, ih]

lemma rankLt_trans :
    ∀ l₁ l₂ l₃ : List Nat, rankLt l₁ l₂ = true → rankLt l₂ l₃ = true →
      rankLt l₁ l₃ = true := by
  intro l₁
  induction l₁ with
  | nil =>
    intro l₂ l₃ h₁₂ h₂₃
    cases l₂ with
    | nil => simp [rankLt] at h₁₂
    | cons b bs =>
      cases l₃ with
      | nil => simp [rankLt] at h₂₃
      | cons c cs => simp [rankLt]
  | cons a as' ih =>
    intro l₂ l₃ h₁₂ h₂₃
    cases l₂ with
    | nil => simp [rankLt] at h₁₂
    | cons b bs =>
      cases l₃ with
      | nil => simp [rankLt] at h₂₃
      | cons c cs =>
        rw [rankLt_cons_iff] at h₁₂ h₂₃ ⊢
        rcases h₁₂ with hab | ⟨hab, htab⟩
        · rcases h₂₃ with hbc | ⟨hbc, _⟩
          · exact Or.inl (hab.trans hbc)
          · exact Or.inl (hbc ▸ hab)
        · rcases h₂₃ with hbc | ⟨hbc, htbc⟩
          · exact Or.inl (hab ▸ hbc)
          · exact Or.inr ⟨hab.trans hbc, ih bs cs htab htbc⟩

lemma rankLt_total :
    ∀ l₁ l₂ : List Nat, rankLt l₁ l₂ = true ∨ l₁ = l₂ ∨ rankLt l₂ l₁ = true := by
  intro l₁
  induction l₁ with
  | nil =>
    intro l₂
    cases l₂ with
    | nil => exact Or.inr (Or.inl rfl)
    | cons b bs => exact Or.inl (by simp [rankLt])
  | cons a as' ih =>
    intro l₂
    cases l₂ with
    | nil => exact Or.inr (Or.inr (by simp [rankLt]))
    | cons b bs =>
      rcases Nat.lt_trichotomy a b with hab | hab | hab
      · exact Or.inl ((rankLt_cons_iff _ _ _ _).2 (Or.inl hab))
      · rcases ih bs with h | h | h
        · exact Or.inl ((rankLt_cons_iff _ _ _ _).2 (Or.inr ⟨hab, h⟩))
        · exact Or.inr (Or.inl (by rw [hab, h]))
        · exact Or.inr (Or.inr ((rankLt_cons_iff _ _ _ _).2 (Or.inr ⟨hab.symm, h⟩)))
      · exact Or.inr (Or.inr ((rankLt_cons_iff _ _ _ _).2 (Or.inl hab)))

/-- The wheel hand of scenario S5: A♠ 2♥ 3♦ 4♣ 5♠. -/
def wheelHand : List Card :=
  [⟨14, .spades⟩, ⟨2, .hearts⟩, ⟨3, .diamonds⟩, ⟨4, .clubs⟩, ⟨5, .spades⟩]

/-- The six-high straight of scenario S5: 2♣ 3♦ 4♥ 5♣ 6♦. -/
def sixHighHand : List Card :=
  [⟨2, .clubs⟩, ⟨3, .diamonds⟩, ⟨4, .hearts⟩, ⟨5, .clubs⟩, ⟨6, .diamonds⟩]

/-- A concrete flush used to witness the straight-below-flush law. -/
def exampleFlushHand : List Card :=
  [⟨2, .clubs⟩, ⟨7, .clubs⟩, ⟨9, .clubs⟩, ⟨5, .clubs⟩, ⟨6, .clubs⟩]

/-- C4.  Wheel straight ranking: `evaluate_5` on A-2-3-4-5 of mixed suits
returns the five-high straight tuple, strictly below the 2-3-4-5-6
straight; every hand evaluating to the straight category ranks strictly
below every hand evaluating to the flush category; and rank-tuple
comparison is a strict total order (irreflexive, transitive, total). -/
theorem wheel_straight_ranking :
    (evaluate5 wheelHand = [handRanks "straight", 5] ∧
      rankLt (evaluate5 wheelHand) (evaluate5 sixHighHand) = true) ∧
    (∀ cs ds : List Card,
      (evaluate5 cs).headD 0 = handRanks "straight" →
      (evaluate5 ds).headD 0 = handRanks "flush" →
      rankLt (evaluate5 cs) (evaluate5 ds) = true) ∧
    (∀ l : List Nat, rankLt l l = false) ∧
    (∀ l₁ l₂ l₃ : List Nat,
      rankLt l₁ l₂ = true → rankLt l₂ l₃ = true → rankLt l₁ l₃ = true) ∧
    (∀ l₁ l₂ : List Nat, rankLt l₁ l₂ = true ∨ l₁ = l₂ ∨ rankLt l₂ l₁ = true) := by
  refine ⟨⟨by decide, by decide⟩, ?_, rankLt_irrefl, rankLt_trans, rankLt_total⟩
  intro cs ds hs hf
  rcases hcs : evaluate5 cs with _ | ⟨a, as'⟩
  · rw [hcs] at hs
    simp [List.headD] at hs
    exact absurd hs (by decide)
  · rcases hds : evaluate5 ds with _ | ⟨b, bs⟩
    · rw [hds] at hf
      simp [List.headD] at hf
      exact absurd hf (by decide)
    · rw [hcs] at hs
      rw [hds] at hf
      simp [List.headD] at hs hf
      rw [rankLt_cons_iff]
      exact Or.inl (by rw [hs, hf]; decide)

/-- Witness for C4: the straight-vs-flush law applied at the wheel and a
concrete flush. -/
theorem wheel_straight_ranking_witness :
    rankLt (evaluate5 wheelHand) (evaluate5 exampleFlushHand) = true :=
  wheel_straight_ranking.2.1 wheelHand exampleFlushHand (by decide) (by decide)

end Poker

namespace Poker

/-! ## C2: hole-card secrecy -/

/-- C2.  Hole-card secrecy: the `TableState` frame computed for viewer V
renders every hole card of every player whose user id is neither null nor V
as the fixed placeholder "XX", and renders cleartext cards exactly for
players whose user id is null or equals V. -/
theorem holecard_secrecy :
    ∀ (tableId : Nat) (t : Table) (viewer : Option Nat),
      (tableStateForViewer tableId t viewer).players =
        t.players.map (playerStateFor viewer) ∧
      ∀ p : Player,
        (p.userId ≠ none → p.userId ≠ viewer →
          (playerStateFor viewer p).holeCards =
            List.replicate p.holeCards.length "XX") ∧
        ((p.userId = none ∨ p.userId = viewer) →
          (playerStateFor viewer p).holeCards = p.holeCards.map Card.str) := by
  intro tableId t viewer
  refine ⟨rfl, fun p => ⟨fun h₁ h₂ => ?_, fun h => ?_⟩⟩
  · simp [playerStateFor, h₁, h₂]
  · simp [playerStateFor, h]

/-- A seat owned by user 6, as rendered for viewer 5. -/
def maskedSeatExample : Player :=
  { id := 1, name := "Eve", seat := 0,
    holeCards := [⟨14, .spades⟩, ⟨13, .hearts⟩], userId := some 6 }

/-- Witness for C2: viewer 5 sees user 6 hole cards as "XX" "XX". -/
theorem holecard_secrecy_witness :
    (playerStateFor (some 5) maskedSeatExample).holeCards =
      List.replicate maskedSeatExample.holeCards.length "XX" :=
  ((holecard_secrecy 1 {} (some 5)).2 maskedSeatExample).1 (by decide) (by decide)

/-! ## C5: run-outs rejected for non-NLH tables -/

/-- C5.  On every table whose game-kind is PLO, `request_runouts`,
`respond_runouts` and `resolve_all_in_showdown` all fail with
"Run-outs are only supported for NLH" (the operations are modelled from the
spec; they are absent from `app/poker/table.py`). -/
theorem runouts_rejected_for_plo :
    ∀ (t : Table) (pid n : Nat) (accept : Bool),
      t.gameType.toLower = "plo" →
      requestRunouts t pid n = .error "Run-outs are only supported for NLH" ∧
      respondRunouts t pid accept = .error "Run-outs are only supported for NLH" ∧
      resolveAllInShowdown t = .error "Run-outs are only supported for NLH" := by
  intro t pid n accept h
  refine ⟨?_, ?_, ?_⟩
  · rw [requestRunouts, h, if_pos (by decide)]
  · rw [respondRunouts, h, if_pos (by decide)]
  · rw [resolveAllInShowdown, h, if_pos (by decide)]

/-- A PLO table as built by the run-out tests: `Table(game_type="PLO")`. -/
def ploTableExample : Table := { gameType := "PLO" }

/-- Witness for C5: the three rejections on a concrete PLO table. -/
theorem runouts_rejected_for_plo_witness :
    requestRunouts ploTableExample 1 2 =
        .error "Run-outs are only supported for NLH" ∧
    respondRunouts ploTableExample 1 true =
        .error "Run-outs are only supported for NLH" ∧
    resolveAllInShowdown ploTableExample =
        .error "Run-outs are only supported for NLH" :=
  runouts_rejected_for_plo ploTableExample 1 2 true (by with_unfolding_all decide)

/-! ## Scenario fixtures built through `addPlayer` -/

/-- Seat one player through `addPlayer` (scenario scaffolding; the error
case never fires in the fixtures below). -/
def seatPlayer (t : Table) (name : String) (stack : ℚ) (uid : Option Nat) : Table :=
  match addPlayer t name stack uid none none with
  | .ok (_, t') => t'
  | .error _ => t

/-- Three 100-chip players Alice, Bob, Charlie at the default 1/2 table. -/
def exTable3 : Table :=
  seatPlayer (seatPlayer (seatPlayer {} "Alice" 100 none) "Bob" 100 none) "Charlie" 100 none

/-- The fresh three-player hand: Alice SB (seat 0), Bob BB (seat 1),
Charlie first to act (seat 2). -/
def handThree : Table := okTableD (startNewHand exTable3 fullDeck 0)

/-! ## C8: start_new_hand precondition -/

/-- C8 (amended).  `start_new_hand` fails, leaving the state unchanged,
whenever fewer than 2 players are seated; player eligibility (stack,
sitting-out) is not part of the check. -/
theorem start_new_hand_two_player_gate :
    ∀ (t : Table) (deck : List Card) (now : ℚ),
      t.players.length < 2 →
      startNewHand t deck now = .error "Need at least 2 players to start a hand" := by
  intro t deck now h
  rw [startNewHand, if_pos h]

/-- A single seated player. -/
def exTable1 : Table := seatPlayer {} "Solo" 100 none

/-- Witness for C8: the gate fires on a one-player table. -/
theorem start_new_hand_two_player_gate_witness :
    exTable1.players.length < 2 ∧
    startNewHand exTable1 fullDeck 0 =
      .error "Need at least 2 players to start a hand" :=
  ⟨by decide, start_new_hand_two_player_gate exTable1 fullDeck 0 (by decide)⟩

/-- Two seated players, one of whom has a zero stack. -/
def exTableZeroStack : Table :=
  seatPlayer (seatPlayer {} "Alice" 0 none) "Bob" 100 none

/-- Counterexample for C8 as stated: with only one player having
`stack > 0` (fewer than 2 eligible players), `start_new_hand` nevertheless
succeeds — eligibility is not checked. -/
theorem start_new_hand_eligibility_not_checked :
    (exTableZeroStack.players.filter (fun p => 0 < p.stack)).length < 2 ∧
    isOkResult (startNewHand exTableZeroStack fullDeck 0) = true := by
  constructor
  · with_unfolding_all decide
  · with_unfolding_all decide

/-! ## C3: the minimum raise is not enforced by the code -/

/-- C3 (code bug).  In the fresh 3-player hand at blinds 1/2, the code
accepts `raise_to 3` from the first player to act (current bet 2, no
minimum-raise validation exists in `_apply_action`), moving 3 chips into
the pot and setting the current bet to 3 — its own test
`test_minimum_raise_required` expects a "minimum raise" `ValueError`. -/
theorem short_raise_accepted_by_code :
    isOkResult (applyAction handThree 3 "raise_to" (some 3) 0) = true ∧
    (okTableD (applyAction handThree 3 "raise_to" (some 3) 0)).currentBet = 3 ∧
    (okTableD (applyAction handThree 3 "raise_to" (some 3) 0)).pot = 6 := by
  refine ⟨by with_unfolding_all decide, by with_unfolding_all decide,
    by with_unfolding_all decide⟩

end Poker

namespace Poker

/-! ## C10: the timeout enforcer is total and never raises -/

/-- C10.  `enforce_action_timeout` characterized on every input: it always
returns; when no seat is on the clock or the deadline has not passed it
returns `none` with the state untouched; when the tracked seat is vacant or
the automatic fold fails it clears `next_to_act_seat` and `action_deadline`
and returns `none` instead of propagating the error; and in the only
remaining case it applies exactly one automatic fold. -/
theorem enforce_timeout_total (t : Table) (now : ℚ) :
    (t.nextToActSeat = none → enforceActionTimeout t now = (none, t)) ∧
    (t.actionDeadline = none → enforceActionTimeout t now = (none, t)) ∧
    (∀ deadline, t.actionDeadline = some deadline → now < deadline →
      enforceActionTimeout t now = (none, t)) ∧
    (∀ seat deadline,
      t.nextToActSeat = some seat → t.actionDeadline = some deadline →
      ¬ now < deadline →
      ((∀ e, playerBySeat t.players seat = .error e →
        enforceActionTimeout t now =
          (none, { t with nextToActSeat := none, actionDeadline := none })) ∧
      (∀ p, playerBySeat t.players seat = .ok p →
        (∀ e, applyAction t p.id "fold" none now = .error e →
          enforceActionTimeout t now =
            (none, { t with nextToActSeat := none, actionDeadline := none })) ∧
        (∀ t', applyAction t p.id "fold" none now = .ok t' →
          enforceActionTimeout t now = (some "fold", t'))))) := by
  refine ⟨?_, ?_, ?_, ?_⟩
  · intro h
    simp [enforceActionTimeout, h]
  · intro h
    rcases hn : t.nextToActSeat with _ | seat
    · simp [enforceActionTimeout, hn]
    · simp [enforceActionTimeout, hn, h]
  · intro deadline hd hlt
    rcases hn : t.nextToActSeat with _ | seat
    · simp [enforceActionTimeout, hn]
    · simp [enforceActionTimeout, hn, hd, hlt]
  · intro seat deadline hn hd hlt
    constructor
    · intro e herr
      simp [enforceActionTimeout, hn, hd, hlt, herr]
    · intro p hp
      constructor
      · intro e herr
        simp [enforceActionTimeout, hn, hd, hlt, hp, herr]
      · intro t' hok
        simp [enforceActionTimeout, hn, hd, hlt, hp, hok]

/-- Witness for C10: with nothing on the clock (the default table), the
enforcer returns `none` and leaves the state untouched. -/
theorem enforce_timeout_total_witness :
    enforceActionTimeout ({} : Table) 0 = (none, ({} : Table)) :=
  (enforce_timeout_total {} 0).1 rfl

end Poker

namespace Poker

/-! ## C6: the no-bet street full-orbit rule -/

/-- A success result equals `.ok` of its extracted table. -/
lemma eq_ok_of_isOk {r : Except String Table} (h : isOkResult r = true) :
    r = .ok (okTableD r) := by
  cases r with
  | ok t => rfl
  | error e => simp [isOkResult] at h

/-- Destructure a successful `Except` bind. -/
lemma exceptBind_ok {α β : Type} (x : Except String α) (f : α → Except String β)
    (b : β) (h : (x >>= f) = .ok b) : ∃ a, x = .ok a ∧ f a = .ok b := by
  cases x with
  | error e => simp [Bind.bind, Except.bind] at h
  | ok a => exact ⟨a, rfl, by simpa [Bind.bind, Except.bind] using h⟩

/-- `_set_action_deadline` only writes the deadline field. -/
lemma setActionDeadline_eq (u : Table) (now : ℚ) :
    setActionDeadline u now =
      { u with actionDeadline :=
          match u.nextToActSeat with
          | none => none
          | some _ => some (now + u.actionTimeLimit) } := by
  unfold setActionDeadline
  cases h : u.nextToActSeat <;> simp

/-- `reset_committed_for_new_street` puts the first eligible seat after the
button on the clock and closes the orbit at the previous eligible seat. -/
lemma resetCommitted_spec (t : Table) (now : ℚ) (t' : Table)
    (h : resetCommittedForNewStreet t now = .ok t') :
    ∃ d, t.dealerSeat = some d ∧ t'.dealerSeat = some d ∧
      nextPlayerToAct t'.players d = .ok t'.nextToActSeat ∧
      prevActiveSeat t'.players t'.nextToActSeat = .ok t'.actionClosingSeat := by
  unfold resetCommittedForNewStreet at h
  rcases hd : t.dealerSeat with _ | d
  · rw [hd] at h
    simp at h
  · rw [hd] at h
    obtain ⟨nta, hn, h⟩ := exceptBind_ok _ _ _ h
    obtain ⟨closing, hc, h⟩ := exceptBind_ok _ _ _ h
    simp only [Except.ok.injEq] at h
    subst h
    refine ⟨d, rfl, ?_, ?_, ?_⟩ <;>
      simp [setActionDeadline_eq, hd, hn, hc]

/-- `deal_flop` sets up the no-bet orbit. -/
lemma dealFlop_orbit (t t' : Table) (now : ℚ) (h : dealFlop t now = .ok t') :
    ∃ d, t.dealerSeat = some d ∧ t'.dealerSeat = some d ∧
      nextPlayerToAct t'.players d = .ok t'.nextToActSeat ∧
      prevActiveSeat t'.players t'.nextToActSeat = .ok t'.actionClosingSeat := by
  unfold dealFlop at h
  split at h
  · simp at h
  · obtain ⟨⟨c₁, d₁⟩, h₁, h⟩ := exceptBind_ok _ _ _ h
    obtain ⟨⟨c₂, d₂⟩, h₂, h⟩ := exceptBind_ok _ _ _ h
    obtain ⟨⟨c₃, d₃⟩, h₃, h⟩ := exceptBind_ok _ _ _ h
    obtain ⟨d, hd, rest⟩ := resetCommitted_spec _ _ _ h
    exact ⟨d, hd, rest⟩

/-- `deal_turn` sets up the no-bet orbit. -/
lemma dealTurn_orbit (t t' : Table) (now : ℚ) (h : dealTurn t now = .ok t') :
    ∃ d, t.dealerSeat = some d ∧ t'.dealerSeat = some d ∧
      nextPlayerToAct t'.players d = .ok t'.nextToActSeat ∧
      prevActiveSeat t'.players t'.nextToActSeat = .ok t'.actionClosingSeat := by
  unfold dealTurn at h
  split at h
  · simp at h
  · obtain ⟨⟨c, d₁⟩, h₁, h⟩ := exceptBind_ok _ _ _ h
    obtain ⟨d, hd, rest⟩ := resetCommitted_spec _ _ _ h
    exact ⟨d, hd, rest⟩

/-- `deal_river` sets up the no-bet orbit. -/
lemma dealRiver_orbit (t t' : Table) (now : ℚ) (h : dealRiver t now = .ok t') :
    ∃ d, t.dealerSeat = some d ∧ t'.dealerSeat = some d ∧
      nextPlayerToAct t'.players d = .ok t'.nextToActSeat ∧
      prevActiveSeat t'.players t'.nextToActSeat = .ok t'.actionClosingSeat := by
  unfold dealRiver at h
  split at h
  · simp at h
  · obtain ⟨⟨c, d₁⟩, h₁, h⟩ := exceptBind_ok _ _ _ h
    obtain ⟨d, hd, rest⟩ := resetCommitted_spec _ _ _ h
    exact ⟨d, hd, rest⟩

/-- Heads-up fixture: Alice (user 11) seat 0, Bob (user 22) seat 1. -/
def exTableHU : Table :=
  seatPlayer (seatPlayer {} "Alice" 100 (some 11)) "Bob" 100 (some 22)

/-- The heads-up hand after `start_new_hand`: Alice is SB and button. -/
def handHU : Table := okTableD (startNewHand exTableHU fullDeck 0)

/-- After the preflop call (Alice, id 1) and check (Bob, id 2). -/
def huPreflopDone : Table :=
  okTableD (applyAction (okTableD (applyAction handHU 1 "call" none 0)) 2 "check" none 0)

/-- The flop state. -/
def huFlop : Table := okTableD (dealFlop huPreflopDone 0)

/-- After Bob (out of position, seat 1) checks the flop. -/
def huFlopBobChecked : Table := okTableD (applyAction huFlop 2 "check" none 0)

/-- After Alice also checks the flop. -/
def huFlopClosed : Table := okTableD (applyAction huFlopBobChecked 1 "check" none 0)

/-- C6.  Whenever a new street is dealt, `next_to_act_seat` becomes the
first eligible seat after the dealer button and `action_closing_seat` the
previous eligible seat before it; in the heads-up scenario after a called
preflop, the non-button player (Bob, seat 1) acts first on the flop, one
check passes action to the button player (Alice, seat 0) without closing
the street, and the street closes only after both have checked. -/
theorem no_bet_street_full_orbit :
    (∀ (t t' : Table) (now : ℚ),
      (dealFlop t now = .ok t' ∨ dealTurn t now = .ok t' ∨
        dealRiver t now = .ok t') →
      ∃ d, t.dealerSeat = some d ∧ t'.dealerSeat = some d ∧
        nextPlayerToAct t'.players d = .ok t'.nextToActSeat ∧
        prevActiveSeat t'.players t'.nextToActSeat = .ok t'.actionClosingSeat) ∧
    (dealFlop huPreflopDone 0 = .ok huFlop ∧
      handHU.dealerButtonSeat = some 0 ∧
      huFlop.nextToActSeat = some 1 ∧
      huFlop.actionClosingSeat = some 0 ∧
      huFlopBobChecked.nextToActSeat = some 0 ∧
      huFlopClosed.nextToActSeat = none) := by
  constructor
  · intro t t' now h
    rcases h with h | h | h
    · exact dealFlop_orbit t t' now h
    · exact dealTurn_orbit t t' now h
    · exact dealRiver_orbit t t' now h
  · refine ⟨eq_ok_of_isOk (by with_unfolding_all decide), ?_, ?_, ?_, ?_, ?_⟩ <;>
      with_unfolding_all decide

/-- Witness for C6: the orbit rule applied to the concrete heads-up flop
deal. -/
theorem no_bet_street_full_orbit_witness :
    ∃ d, huPreflopDone.dealerSeat = some d ∧ huFlop.dealerSeat = some d ∧
      nextPlayerToAct huFlop.players d = .ok huFlop.nextToActSeat ∧
      prevActiveSeat huFlop.players huFlop.nextToActSeat =
        .ok huFlop.actionClosingSeat :=
  no_bet_street_full_orbit.1 huPreflopDone huFlop 0
    (Or.inl (eq_ok_of_isOk (by with_unfolding_all decide)))

end Poker

namespace Poker

/-! ## Totality of the seat-cycle helpers (used by C9) -/

lemma mem_insertAsc {x a : Nat} : ∀ {l : List Nat}, a ∈ insertAsc x l ↔ a = x ∨ a ∈ l := by
  intro l
  induction l with
  | nil => simp [insertAsc]
  | cons y ys ih =>
    by_cases h : x ≤ y
    · simp [insertAsc, h]
    · simp only [insertAsc, if_neg h, List.mem_cons, ih]
      tauto

lemma mem_sortAsc {a : Nat} : ∀ {l : List Nat}, a ∈ sortAsc l ↔ a ∈ l := by
  intro l
  induction l with
  | nil => simp [sortAsc]
  | cons x xs ih =>
    simp only [sortAsc, List.foldr_cons]
    rw [show List.foldr insertAsc [] xs = sortAsc xs from rfl] at *
    simp [mem_insertAsc, ih]

lemma occupied_contains_iff (ps : List Player) (s : Nat) :
    (occupiedSeats ps).contains s = true ↔ s ∈ ps.map (·.seat) := by
  simp only [occupiedSeats, List.contains, List.elem_eq_mem, decide_eq_true_eq]
  exact mem_sortAsc

lemma nextSeat_ok {ps : List Player} {s : Nat} (h : s ∈ ps.map (·.seat)) :
    ∃ s', nextSeat ps s = .ok s' ∧ s' ∈ ps.map (·.seat) := by
  have hc : (occupiedSeats ps).contains s = true := (occupied_contains_iff ps s).2 h
  have hmem : s ∈ occupiedSeats ps := mem_sortAsc.2 h
  have hlen : 0 < (occupiedSeats ps).length := List.length_pos.2 (List.ne_nil_of_mem hmem)
  have hidx : ((occupiedSeats ps).indexOf s + 1) % (occupiedSeats ps).length <
      (occupiedSeats ps).length := Nat.mod_lt _ hlen
  refine ⟨(occupiedSeats ps).getD
    (((occupiedSeats ps).indexOf s + 1) % (occupiedSeats ps).length) 0, ?_, ?_⟩
  · rw [nextSeat, if_pos hc]
  · rw [List.getD_eq_getElem _ _ hidx]
    exact mem_sortAsc.1 (List.getElem_mem _)

lemma prevSeat_ok {ps : List Player} {s : Nat} (h : s ∈ ps.map (·.seat)) :
    ∃ s', prevSeat ps s = .ok s' ∧ s' ∈ ps.map (·.seat) := by
  have hc : (occupiedSeats ps).contains s = true := (occupied_contains_iff ps s).2 h
  have hmem : s ∈ occupiedSeats ps := mem_sortAsc.2 h
  have hlen : 0 < (occupiedSeats ps).length := List.length_pos.2 (List.ne_nil_of_mem hmem)
  have hidx : ((occupiedSeats ps).indexOf s + (occupiedSeats ps).length - 1) %
      (occupiedSeats ps).length < (occupiedSeats ps).length := Nat.mod_lt _ hlen
  refine ⟨(occupiedSeats ps).getD
    (((occupiedSeats ps).indexOf s + (occupiedSeats ps).length - 1) %
      (occupiedSeats ps).length) 0, ?_, ?_⟩
  · rw [prevSeat, if_pos hc]
  · rw [List.getD_eq_getElem _ _ hidx]
    exact mem_sortAsc.1 (List.getElem_mem _)

lemma playerBySeat_ok {ps : List Player} {s : Nat} (h : s ∈ ps.map (·.seat)) :
    ∃ p, playerBySeat ps s = .ok p ∧ p ∈ ps := by
  obtain ⟨q, hq, hqs⟩ := List.mem_map.1 h
  have : (ps.find? (fun p => p.seat = s)).isSome := by
    rw [List.find?_isSome]
    exact ⟨q, hq, by simp [hqs]⟩
  obtain ⟨p, hp⟩ := Option.isSome_iff_exists.1 this
  exact ⟨p, by rw [playerBySeat, hp], List.mem_of_find?_eq_some hp⟩

lemma nextToActLoop_ok {ps : List Player} {start : Nat} :
    ∀ (fuel : Nat) {seat : Nat}, seat ∈ ps.map (·.seat) →
      ∃ o, nextToActLoop ps start fuel seat = .ok o := by
  intro fuel
  induction fuel with
  | zero => exact fun _ => ⟨none, rfl⟩
  | succ n ih =>
    intro seat hseat
    obtain ⟨s', hs', hmem'⟩ := nextSeat_ok hseat
    obtain ⟨p, hp, _⟩ := playerBySeat_ok hmem'
    by_cases he : eligible p = true
    · exact ⟨some s', by simp [nextToActLoop, hs', hp, Bind.bind, Except.bind, he]⟩
    · by_cases hst : s' = start
      · refine ⟨none, ?_⟩
        subst hst
        simp [nextToActLoop, hs', hp, Bind.bind, Except.bind, he]
      · obtain ⟨o, ho⟩ := ih hmem'
        refine ⟨o, ?_⟩
        simp [nextToActLoop, hs', hp, Bind.bind, Except.bind, he, hst, ho]

lemma nextPlayerToAct_ok {ps : List Player} {start : Nat}
    (h : start ∈ ps.map (·.seat)) : ∃ o, nextPlayerToAct ps start = .ok o := by
  have hne : ps.isEmpty = false := by
    cases ps with
    | nil => simp at h
    | cons a l => rfl
  obtain ⟨o, ho⟩ := @nextToActLoop_ok ps start ps.length start h
  exact ⟨o, by rw [nextPlayerToAct, hne]; simpa using ho⟩

lemma prevActiveLoop_ok {ps : List Player} {start : Nat} :
    ∀ (fuel : Nat) {seat : Nat}, seat ∈ ps.map (·.seat) →
      ∃ o, prevActiveLoop ps start fuel seat = .ok o := by
  intro fuel
  induction fuel with
  | zero => exact fun _ => ⟨none, rfl⟩
  | succ n ih =>
    intro seat hseat
    obtain ⟨s', hs', hmem'⟩ := prevSeat_ok hseat
    obtain ⟨p, hp, _⟩ := playerBySeat_ok hmem'
    by_cases he : eligible p = true
    · exact ⟨some s', by simp [prevActiveLoop, hs', hp, Bind.bind, Except.bind, he]⟩
    · by_cases hst : s' = start
      · refine ⟨none, ?_⟩
        subst hst
        simp [prevActiveLoop, hs', hp, Bind.bind, Except.bind, he]
      · obtain ⟨o, ho⟩ := ih hmem'
        refine ⟨o, ?_⟩
        simp [prevActiveLoop, hs', hp, Bind.bind, Except.bind, he, hst, ho]

lemma prevActiveSeat_ok {ps : List Player} {start : Nat}
    (h : start ∈ ps.map (·.seat)) : ∃ o, prevActiveSeat ps (some start) = .ok o := by
  have hne : ps.isEmpty = false := by
    cases ps with
    | nil => simp at h
    | cons a l => rfl
  obtain ⟨o, ho⟩ := @prevActiveLoop_ok ps start ps.length start h
  exact ⟨o, by rw [prevActiveSeat, hne]; simpa using ho⟩

end Poker

namespace Poker

/-! ## Updating the first matching player (object mutation, pure form) -/

lemma map_updateFirst {α β : Type} (pred : α → Bool) (f : α → α) (g : α → β) :
    ∀ (ps : List α) (p : α), ps.find? pred = some p → g (f p) = g p →
      (updateFirst pred f ps).map g = ps.map g := by
  intro ps
  induction ps with
  | nil => intro p h _; simp [List.find?] at h
  | cons x xs ih =>
    intro p h hg
    by_cases hx : pred x = true
    · rw [List.find?_cons_of_pos _ hx] at h
      cases h
      simp [updateFirst, hx, hg]
    · rw [List.find?_cons_of_neg _ (by simpa using hx)] at h
      simp only [updateFirst, if_neg hx, List.map_cons]
      rw [ih p h hg]

lemma sum_map_updateFirst (pred : Player → Bool) (f : Player → Player)
    (g : Player → ℚ) :
    ∀ (ps : List Player) (p : Player), ps.find? pred = some p →
      ((updateFirst pred f ps).map g).sum = (ps.map g).sum + (g (f p) - g p) := by
  intro ps
  induction ps with
  | nil => intro p h; simp [List.find?] at h
  | cons x xs ih =>
    intro p h
    by_cases hx : pred x = true
    · rw [List.find?_cons_of_pos _ hx] at h
      cases h
      simp [updateFirst, hx]
      ring
    · rw [List.find?_cons_of_neg _ (by simpa using hx)] at h
      simp only [updateFirst, if_neg hx, List.map_cons, List.sum_cons]
      rw [ih p h]
      ring

lemma find?_updateFirst (pred : Player → Bool) (f : Player → Player) :
    ∀ (ps : List Player) (p : Player), ps.find? pred = some p →
      pred (f p) = true →
      (updateFirst pred f ps).find? pred = some (f p) := by
  intro ps
  induction ps with
  | nil => intro p h _; simp [List.find?] at h
  | cons x xs ih =>
    intro p h hf
    by_cases hx : pred x = true
    · rw [List.find?_cons_of_pos _ hx] at h
      cases h
      simp [updateFirst, hx, List.find?_cons_of_pos _ hf]
    · rw [List.find?_cons_of_neg _ (by simpa using hx)] at h
      simp only [updateFirst, if_neg hx]
      rw [List.find?_cons_of_neg _ (by simpa using hx)]
      exact ih p h hf

/-! ## `_advance_turn` facts -/

/-- `_advance_turn` only moves the clock: chips, players and the snapshot
are untouched. -/
lemma advanceTurn_preserve (t t' : Table) (now : ℚ)
    (h : advanceTurn t now = .ok t') :
    t'.players = t.players ∧ t'.pot = t.pot ∧ t'.currentBet = t.currentBet ∧
      t'.handStartStacks = t.handStartStacks ∧ t'.street = t.street ∧
      t'.dealerSeat = t.dealerSeat := by
  unfold advanceTurn at h
  split at h
  · simp only [Except.ok.injEq] at h
    subst h
    exact ⟨rfl, rfl, rfl, rfl, rfl, rfl⟩
  · split at h
    · simp only [Except.ok.injEq] at h
      subst h
      exact ⟨rfl, rfl, rfl, rfl, rfl, rfl⟩
    · split at h
      · simp at h
      · obtain ⟨o, ho, h⟩ := exceptBind_ok _ _ _ h
        cases o with
        | none =>
          simp only [Except.ok.injEq] at h
          subst h
          exact ⟨rfl, rfl, rfl, rfl, rfl, rfl⟩
        | some s =>
          simp only [Except.ok.injEq] at h
          subst h
          simp [setActionDeadline_eq]

/-- `_advance_turn` succeeds whenever the tracked seat is occupied. -/
lemma advanceTurn_ok (t : Table) (now : ℚ) (s : Nat)
    (hn : t.nextToActSeat = some s) (hs : s ∈ t.players.map (·.seat)) :
    ∃ t', advanceTurn t now = .ok t' := by
  by_cases h1 : (t.players.all (fun p => p.hasFolded ∨ p.allIn)) = true
  · exact ⟨_, by rw [advanceTurn, if_pos h1]⟩
  · by_cases h2 : t.actionClosingSeat = t.nextToActSeat ∧ bettingRoundSettled t = true
    · refine ⟨{ t with nextToActSeat := none, actionDeadline := none }, ?_⟩
      rw [advanceTurn, if_neg h1, if_pos (by exact_mod_cast h2)]
    · obtain ⟨o, ho⟩ := nextPlayerToAct_ok hs
      cases o with
      | none =>
        refine ⟨{ t with nextToActSeat := none, actionDeadline := none }, ?_⟩
        rw [advanceTurn, if_neg h1, if_neg (by exact_mod_cast h2), hn]
        simp [Bind.bind, Except.bind, ho]
      | some s2 =>
        refine ⟨setActionDeadline { t with nextToActSeat := some s2 } now, ?_⟩
        rw [advanceTurn, if_neg h1, if_neg (by exact_mod_cast h2), hn]
        simp [Bind.bind, Except.bind, ho]

end Poker

namespace Poker

/-! ## C9: an all-in raise for less than the declared amount -/

/-- C9.  A `raise_to X` with `X > current_bet` whose required contribution
`X - committed` exceeds the stack succeeds: the player commits exactly the
whole remaining stack, is marked all-in, and the current bet becomes
`max current_bet (committed + stack)` — possibly strictly below X. -/
theorem allin_raise_for_less (t : Table) (pid : Nat) (amt now : ℚ) (p : Player)
    (hfind : getPlayerById t.players pid = .ok p)
    (hnta : t.nextToActSeat = some p.seat)
    (hin : p.inHand = true) (hnf : p.hasFolded = false) (hna : p.allIn = false)
    (hstk : 0 ≤ p.stack)
    (hgt : t.currentBet < amt)
    (hover : p.stack < amt - p.committed) :
    ∃ t', applyAction t pid "raise_to" (some amt) now = .ok t' ∧
      t'.players = updateFirst (fun q => q.id = p.id)
        (fun _ => { p with
          stack := 0,
          committed := p.committed + p.stack,
          allIn := true }) t.players ∧
      t'.pot = t.pot + p.stack ∧
      t'.currentBet = max t.currentBet (p.committed + p.stack) := by
  -- identify pid with p.id
  have hfp : t.players.find? (fun q => q.id = pid) = some p := by
    unfold getPlayerById at hfind
    rcases h : t.players.find? (fun q => q.id = pid) with _ | q
    · rw [h] at hfind; simp at hfind
    · rw [h] at hfind
      simp only [Except.ok.injEq] at hfind
      subst hfind
      exact h
  have hpid : p.id = pid := by
    have := List.find?_some hfp
    simpa using this
  subst hpid
  have hmin : min p.stack (amt - p.committed) = p.stack :=
    min_eq_left (le_of_lt hover)
  have hmem : p.seat ∈ t.players.map (·.seat) :=
    List.mem_map.2 ⟨p, List.mem_of_find?_eq_some hfp, rfl⟩
  -- the action core
  set pNew : Player :=
    { p with
      stack := 0,
      committed := p.committed + p.stack,
      allIn := true }
    with hpNew
  have hcore : applyActionCore t p "raise_to" (some amt) =
      .ok (pNew, { t with
        players := updateFirst (fun q => q.id = p.id) (fun _ => pNew) t.players,
        pot := t.pot + p.stack,
        currentBet := max t.currentBet (p.committed + p.stack),
        actionClosingSeat := some p.seat }) := by
    rw [applyActionCore]
    rw [if_neg (by decide), if_neg (by decide), if_neg (by decide), if_pos rfl]
    simp only
    rw [if_neg (not_le.2 hgt), if_neg (not_le.2 (lt_of_le_of_lt hstk hover)),
      hmin]
    have hall : (decide (p.stack - p.stack = 0 ∨ p.allIn = true)) = true := by
      simp
    simp [hpNew, sub_self, hall]
  -- totality of the closing-seat adjustment and the turn advance
  have hmapseat : (updateFirst (fun q => q.id = p.id) (fun _ => pNew)
      t.players).map (·.seat) = t.players.map (·.seat) :=
    map_updateFirst _ _ _ t.players p hfp rfl
  obtain ⟨prevOpt, hprev⟩ := @prevActiveSeat_ok
      (updateFirst (fun q => q.id = p.id) (fun _ => pNew) t.players) p.seat
      (by rw [hmapseat]; exact hmem)
  set t₂ : Table := { t with
    players := updateFirst (fun q => q.id = p.id) (fun _ => pNew) t.players,
    pot := t.pot + p.stack,
    currentBet := max t.currentBet (p.committed + p.stack),
    actionClosingSeat := prevOpt } with ht₂
  obtain ⟨t₃, hadv⟩ := advanceTurn_ok t₂ now p.seat (by simp [ht₂, hnta])
      (by simp only [ht₂]; rw [hmapseat]; exact hmem)
  obtain ⟨hP, hPot, hCB, _, _, _⟩ := advanceTurn_preserve _ _ _ hadv
  refine ⟨t₃, ?_, ?_, ?_, ?_⟩
  · rw [applyAction, hnta]
    simp only [Bind.bind, Except.bind, hfind]
    rw [if_neg (by simp), if_neg (by simp [hin, hnf, hna]), hcore]
    simp only
    rw [if_pos (by simp [hpNew])]
    simp only [Bind.bind, Except.bind, hprev]
    exact hadv
  · rw [hP]
  · rw [hPot]
  · rw [hCB]

/-- The three-player hand after Charlie opens to 6. -/
def handSix : Table := okTableD (applyAction handThree 3 "raise_to" (some 6) 0)

/-- Default player used only by the result extractor. -/
def defaultPlayer : Player := { id := 0, name := "", seat := 0 }

/-- Player extractor for concrete runs. -/
def okPlayerD (r : Except String Player) : Player :=
  match r with
  | .ok p => p
  | .error _ => defaultPlayer

/-- A success result equals `.ok` of its extracted player. -/
lemma eq_okPlayer_of_isOk {r : Except String Player} (h : isOkResult r = true) :
    r = .ok (okPlayerD r) := by
  cases r with
  | ok p => rfl
  | error e => simp [isOkResult] at h

/-- Alice (id 1) in `handSix`: stack 99, committed 1. -/
def aliceInSix : Player := okPlayerD (getPlayerById handSix.players 1)

/-- Witness for C9: Alice declares `raise_to 300` holding only 99 behind;
the action succeeds, she is all-in for 100 total, and the current bet
becomes 100 < 300. -/
theorem allin_raise_for_less_witness :
    (∃ t', applyAction handSix 1 "raise_to" (some 300) 0 = .ok t' ∧
      t'.players = updateFirst (fun q => q.id = aliceInSix.id)
        (fun _ => { aliceInSix with
          stack := 0,
          committed := aliceInSix.committed + aliceInSix.stack,
          allIn := true }) handSix.players ∧
      t'.pot = handSix.pot + aliceInSix.stack ∧
      t'.currentBet = max handSix.currentBet
        (aliceInSix.committed + aliceInSix.stack)) ∧
    max handSix.currentBet (aliceInSix.committed + aliceInSix.stack) < 300 := by
  constructor
  · exact allin_raise_for_less handSix 1 300 0 aliceInSix
      (eq_okPlayer_of_isOk (by with_unfolding_all decide))
      (by with_unfolding_all decide)
      (by with_unfolding_all decide) (by with_unfolding_all decide)
      (by with_unfolding_all decide) (by with_unfolding_all decide)
      (by with_unfolding_all decide) (by with_unfolding_all decide)
  · with_unfolding_all decide

end Poker

namespace Poker

/-! ## C1: chip accounting -/

/-- Total chips sitting in player stacks. -/
def sumStacks (ps : List Player) : ℚ := (ps.map (·.stack)).sum

/-- Total committed-this-street amounts. -/
def sumCommitted (ps : List Player) : ℚ := (ps.map (·.committed)).sum

/-- The quantity named by the claim: `pot + Σ stack + Σ committed`. -/
def chipReported (t : Table) : ℚ :=
  t.pot + sumStacks t.players + sumCommitted t.players

/-- The quantity this engine actually conserves: `pot + Σ stack` (the pot
is credited at commit time, so committed chips are already inside it). -/
def chipTotal (t : Table) : ℚ := t.pot + sumStacks t.players

/-- The sum of the `hand_start_stacks` snapshot values. -/
def snapshotSum (t : Table) : ℚ := (t.handStartStacks.map (·.2)).sum

lemma dictInsert_notMem {d : List (Nat × ℚ)} {k : Nat} (v : ℚ)
    (h : k ∉ d.map (·.1)) : dictInsert d k v = d ++ [(k, v)] := by
  induction d with
  | nil => rfl
  | cons kv rest ih =>
    rcases kv with ⟨k', v'⟩
    simp only [List.map_cons, List.mem_cons] at h
    push_neg at h
    simp only [dictInsert, if_neg (Ne.symm h.1), List.cons_append]
    rw [ih h.2]

lemma stackSnapshot_sum_aux :
    ∀ (ps : List Player) (acc : List (Nat × ℚ)),
      (ps.map (·.id)).Nodup → (∀ p ∈ ps, p.id ∉ acc.map (·.1)) →
      ((ps.foldl (fun d p => dictInsert d p.id p.stack) acc).map (·.2)).sum =
        (acc.map (·.2)).sum + sumStacks ps := by
  intro ps
  induction ps with
  | nil => intro acc _ _; simp [sumStacks]
  | cons p rest ih =>
    intro acc hnd hdisj
    have hpacc : p.id ∉ acc.map (·.1) := hdisj p (List.mem_cons_self p rest)
    have hins : dictInsert acc p.id p.stack = acc ++ [(p.id, p.stack)] :=
      dictInsert_notMem _ hpacc
    simp only [List.foldl_cons, hins]
    have hndrest : (rest.map (·.id)).Nodup := by
      simpa using (List.nodup_cons.1 (by simpa using hnd)).2
    have hhead : p.id ∉ rest.map (·.id) :=
      (List.nodup_cons.1 (by simpa using hnd)).1
    have hdisj' : ∀ q ∈ rest, q.id ∉ (acc ++ [(p.id, p.stack)]).map (·.1) := by
      intro q hq
      simp only [List.map_append, List.mem_append, List.map_cons, List.map_nil,
        List.mem_singleton]
      push_neg
      refine ⟨hdisj q (List.mem_cons_of_mem _ hq), ?_⟩
      intro hcontra
      exact hhead (hcontra ▸ List.mem_map.2 ⟨q, hq, rfl⟩)
    rw [ih (acc ++ [(p.id, p.stack)]) hndrest hdisj']
    simp [sumStacks]
    ring

/-- With unique player ids the snapshot sums to the stack total. -/
lemma stackSnapshot_sum (ps : List Player) (h : (ps.map (·.id)).Nodup) :
    ((stackSnapshot ps).map (·.2)).sum = sumStacks ps := by
  have := stackSnapshot_sum_aux ps [] h (by simp)
  simpa [stackSnapshot] using this

/-- Bomb-pot contributions only move chips from stacks into the total. -/
lemma bombPotContribute_sum (amt : ℚ) :
    ∀ ps : List Player,
      sumStacks (bombPotContribute amt ps).1 + (bombPotContribute amt ps).2 =
        sumStacks ps := by
  intro ps
  induction ps with
  | nil => simp [bombPotContribute, sumStacks]
  | cons p rest ih =>
    rcases hbp : bombPotContribute amt rest with ⟨rest', total⟩
    rw [hbp] at ih
    simp only [bombPotContribute, hbp, sumStacks, List.map_cons, List.sum_cons] at *
    linarith [ih]

/-- The bomb pot preserves `pot + Σ stacks` and the snapshot. -/
lemma applyBombPot_chip (t : Table) :
    chipTotal (applyBombPotIfNeeded t) = chipTotal t ∧
      (applyBombPotIfNeeded t).handStartStacks = t.handStartStacks := by
  rcases hn : t.bombPotEveryNHands with _ | n
  · unfold applyBombPotIfNeeded
    rw [hn]
    exact ⟨rfl, rfl⟩
  · rcases ha : t.bombPotAmount with _ | amt
    · unfold applyBombPotIfNeeded
      rw [hn, ha]
      exact ⟨rfl, rfl⟩
    · unfold applyBombPotIfNeeded
      rw [hn, ha]
      dsimp only
      by_cases h0 : n = 0 ∨ amt = 0
      · rw [if_pos h0]
        exact ⟨rfl, rfl⟩
      · rw [if_neg h0]
        by_cases hm : t.handNumber % n ≠ 0
        · rw [if_pos hm]
          exact ⟨rfl, rfl⟩
        · rw [if_neg hm]
          have hsum := bombPotContribute_sum amt t.players
          rcases hbp : bombPotContribute amt t.players with ⟨ps', total⟩
          rw [hbp] at hsum
          refine ⟨?_, rfl⟩
          simp only [chipTotal, sumStacks] at *
          linarith [hsum]

/-- Dealing hole cards moves no chips. -/
lemma dealOneCardToEach_sum :
    ∀ (ps : List Player) (deck : List Card) (ps' : List Player)
      (deck' : List Card),
      dealOneCardToEach ps deck = .ok (ps', deck') →
      sumStacks ps' = sumStacks ps := by
  intro ps
  induction ps with
  | nil =>
    intro deck ps' deck' h
    simp only [dealOneCardToEach, Except.ok.injEq, Prod.mk.injEq] at h
    rw [← h.1]
  | cons p rest ih =>
    intro deck ps' deck' h
    cases deck with
    | nil => simp [dealOneCardToEach] at h
    | cons c d =>
      simp only [dealOneCardToEach] at h
      obtain ⟨⟨rest', dk⟩, hrec, hok⟩ := exceptBind_ok _ _ _ h
      simp only [Except.ok.injEq, Prod.mk.injEq] at hok
      rw [← hok.1]
      simp only [sumStacks, List.map_cons, List.sum_cons]
      have := ih d rest' dk hrec
      simp only [sumStacks] at this
      rw [this]

/-- `_post_blind` moves `min(stack, amount)` from the blind poster's stack
into the pot. -/
lemma postBlindBySeat_chip (t : Table) (seat : Nat) (amt : ℚ) :
    chipTotal (postBlindBySeat t seat amt).2 = chipTotal t ∧
      (postBlindBySeat t seat amt).2.handStartStacks = t.handStartStacks := by
  unfold postBlindBySeat
  rcases hf : t.players.find? (fun p => p.seat = seat) with _ | p
  · rw [hf]
    exact ⟨rfl, rfl⟩
  · rw [hf]
    dsimp only
    refine ⟨?_, rfl⟩
    simp only [chipTotal, sumStacks]
    rw [sum_map_updateFirst _ _ _ t.players p hf]
    dsimp only
    ring

/-- `post_blinds` preserves `pot + Σ stacks` and the snapshot. -/
lemma postBlinds_chip (t t' : Table) (now : ℚ)
    (h : postBlinds t now = .ok t') :
    chipTotal t' = chipTotal t ∧ t'.handStartStacks = t.handStartStacks := by
  unfold postBlinds at h
  split at h
  · simp at h
  · rcases hd : t.dealerSeat with _ | dealer
    · rw [hd] at h; simp at h
    · rw [hd] at h
      obtain ⟨sbP, hsb, h⟩ := exceptBind_ok _ _ _ h
      obtain ⟨bbSeat, hbs, h⟩ := exceptBind_ok _ _ _ h
      obtain ⟨bbP, hbb, h⟩ := exceptBind_ok _ _ _ h
      have c1 := postBlindBySeat_chip t sbP.seat t.smallBlind
      have c2 := postBlindBySeat_chip (postBlindBySeat t sbP.seat t.smallBlind).2
        bbP.seat t.bigBlind
      obtain ⟨nta, hnta, h⟩ := exceptBind_ok _ _ _ h
      simp only [Except.ok.injEq] at h
      subst h
      rw [setActionDeadline_eq]
      refine ⟨?_, ?_⟩
      · simp only [chipTotal] at *
        linarith [c1.1, c2.1]
      · simp only
        rw [c2.2, c1.2]

end Poker

namespace Poker

lemma sumStacks_map_eq (f : Player → Player) (hf : ∀ p, (f p).stack = p.stack) :
    ∀ ps : List Player, sumStacks (ps.map f) = sumStacks ps := by
  intro ps
  induction ps with
  | nil => rfl
  | cons p rest ih =>
    simp only [sumStacks, List.map_cons, List.sum_cons] at *
    rw [hf p, ih]

/-- `start_new_hand` establishes `pot + Σ stacks = Σ snapshot` (player ids
are unique by construction of `add_player`). -/
lemma startNewHand_chip (t : Table) (deck : List Card) (now : ℚ) (t₀ : Table)
    (hnd : (t.players.map (·.id)).Nodup)
    (h : startNewHand t deck now = .ok t₀) :
    chipTotal t₀ = snapshotSum t₀ := by
  unfold startNewHand at h
  split at h
  · simp at h
  · dsimp only at h
    obtain ⟨dealer, hdeal, h⟩ := exceptBind_ok _ _ _ h
    obtain ⟨⟨ps₁, deck₁⟩, h1, h⟩ := exceptBind_ok _ _ _ h
    obtain ⟨⟨ps₂, deck₂⟩, h2, h⟩ := exceptBind_ok _ _ _ h
    have hpb := postBlinds_chip _ _ _ h
    have hbomb := applyBombPot_chip { t with
      handNumber := t.handNumber + 1,
      deck := deck,
      board := [],
      pot := 0,
      currentBet := 0,
      street := Street.preflop,
      smallBlindSeat := none,
      bigBlindSeat := none,
      dealerButtonSeat := some dealer,
      actionClosingSeat := none,
      handStartStacks := stackSnapshot t.players,
      dealerSeat := some dealer,
      players := t.players.map (fun p => { p with
        holeCards := [],
        inHand := true,
        hasFolded := false,
        committed := 0,
        allIn := false }) }
    have hd1 := dealOneCardToEach_sum _ _ _ _ h1
    have hd2 := dealOneCardToEach_sum _ _ _ _ h2
    have hreset : sumStacks (t.players.map (fun p => { p with
        holeCards := [],
        inHand := true,
        hasFolded := false,
        committed := 0,
        allIn := false })) = sumStacks t.players :=
      sumStacks_map_eq (fun p => { p with
        holeCards := [],
        inHand := true,
        hasFolded := false,
        committed := 0,
        allIn := false }) (fun p => rfl) t.players
    have hsnap : ((stackSnapshot t.players).map (·.2)).sum = sumStacks t.players :=
      stackSnapshot_sum t.players hnd
    obtain ⟨hpb1, hpb2⟩ := hpb
    have hb1 := hbomb.1
    have hb2 := hbomb.2
    have hsnap₀ : snapshotSum t₀ = sumStacks t.players := by
      unfold snapshotSum
      rw [hpb2]
      dsimp only
      rw [hb2]
      dsimp only
      exact hsnap
    rw [hsnap₀]
    unfold chipTotal at hpb1 hb1 ⊢
    rw [hpb1]
    dsimp only
    rw [hd2, hd1, hb1]
    dsimp only
    rw [hreset]
    ring

/-- One `_apply_action` branch preserves `pot + Σ stacks` and the
snapshot. -/
lemma applyActionCore_chip (t : Table) (acting a' : Player) (action : String)
    (amount : Option ℚ) (t₁ : Table)
    (hfp : t.players.find? (fun q => q.id = acting.id) = some acting)
    (h : applyActionCore t acting action amount = .ok (a', t₁)) :
    chipTotal t₁ = chipTotal t ∧ t₁.handStartStacks = t.handStartStacks := by
  unfold applyActionCore at h
  split at h
  · -- fold
    simp only [Except.ok.injEq, Prod.mk.injEq] at h
    rw [← h.2]
    refine ⟨?_, rfl⟩
    simp only [chipTotal, sumStacks]
    rw [sum_map_updateFirst _ _ _ t.players acting hfp]
    simp only
    ring
  · split at h
    · -- check
      split at h
      · simp at h
      · simp only [Except.ok.injEq, Prod.mk.injEq] at h
        rw [← h.2]
        exact ⟨rfl, rfl⟩
    · split at h
      · -- call
        dsimp only at h
        split at h
        · simp only [Except.ok.injEq, Prod.mk.injEq] at h
          rw [← h.2]
          exact ⟨rfl, rfl⟩
        · simp only [Except.ok.injEq, Prod.mk.injEq] at h
          rw [← h.2]
          refine ⟨?_, rfl⟩
          simp only [chipTotal, sumStacks]
          rw [sum_map_updateFirst _ _ _ t.players acting hfp]
          simp only
          ring
      · split at h
        · -- raise_to
          rcases amount with _ | amt
          · simp at h
          · dsimp only at h
            split at h
            · simp at h
            · split at h
              · simp at h
              · simp only [Except.ok.injEq, Prod.mk.injEq] at h
                rw [← h.2]
                refine ⟨?_, rfl⟩
                simp only [chipTotal, sumStacks]
                rw [sum_map_updateFirst _ _ _ t.players acting hfp]
                simp only
                ring
        · simp at h

/-- `_apply_action` preserves `pot + Σ stacks` and the snapshot. -/
lemma applyAction_chip (t t' : Table) (pid : Nat) (action : String)
    (amount : Option ℚ) (now : ℚ)
    (h : applyAction t pid action amount now = .ok t') :
    chipTotal t' = chipTotal t ∧ t'.handStartStacks = t.handStartStacks := by
  unfold applyAction at h
  rcases hn : t.nextToActSeat with _ | nta
  · rw [hn] at h; simp at h
  · rw [hn] at h
    obtain ⟨acting, hact, h⟩ := exceptBind_ok _ _ _ h
    have hfp : t.players.find? (fun q => q.id = acting.id) = some acting := by
      unfold getPlayerById at hact
      rcases hff : t.players.find? (fun q => q.id = pid) with _ | q
      · rw [hff] at hact; simp at hact
      · rw [hff] at hact
        simp only [Except.ok.injEq] at hact
        have hqid : q.id = pid := by simpa using List.find?_some hff
        rw [← hact, hqid]
        exact hff
    split at h
    · simp at h
    · split at h
      · simp at h
      · obtain ⟨⟨a', t₁⟩, hcore, h⟩ := exceptBind_ok _ _ _ h
        have hc1 := applyActionCore_chip t acting a' action amount t₁ hfp hcore
        dsimp only at h
        split at h
        · obtain ⟨prevOpt, hp, h⟩ := exceptBind_ok _ _ _ h
          obtain ⟨y, hy, h⟩ := exceptBind_ok _ _ _ h
          simp only [pure, Except.pure, Except.ok.injEq] at hy
          subst hy
          have hadv := advanceTurn_preserve _ _ _ h
          refine ⟨?_, ?_⟩
          · have hct : chipTotal t' = chipTotal t₁ := by
              simp only [chipTotal, sumStacks, hadv.1, hadv.2.1]
            rw [hct, hc1.1]
          · rw [hadv.2.2.2.1]
            exact hc1.2
        · obtain ⟨y, hy, h⟩ := exceptBind_ok _ _ _ h
          simp only [pure, Except.pure, Except.ok.injEq] at hy
          subst hy
          have hadv := advanceTurn_preserve _ _ _ h
          refine ⟨?_, ?_⟩
          · have hct : chipTotal t' = chipTotal t₁ := by
              simp only [chipTotal, sumStacks, hadv.1, hadv.2.1]
            rw [hct, hc1.1]
          · rw [hadv.2.2.2.1]
            exact hc1.2

/-- `reset_committed_for_new_street` preserves `pot + Σ stacks` and the
snapshot. -/
lemma resetCommitted_chip (t t' : Table) (now : ℚ)
    (h : resetCommittedForNewStreet t now = .ok t') :
    chipTotal t' = chipTotal t ∧ t'.handStartStacks = t.handStartStacks := by
  unfold resetCommittedForNewStreet at h
  rcases hd : t.dealerSeat with _ | dealer
  · rw [hd] at h; simp at h
  · rw [hd] at h
    obtain ⟨nta, hnta, h⟩ := exceptBind_ok _ _ _ h
    obtain ⟨closing, hc, h⟩ := exceptBind_ok _ _ _ h
    simp only [Except.ok.injEq] at h
    subst h
    rw [setActionDeadline_eq]
    refine ⟨?_, rfl⟩
    simp only [chipTotal]
    rw [sumStacks_map_eq (fun p => { p with committed := 0 }) (fun p => rfl) t.players]

/-- The three dealing transitions preserve `pot + Σ stacks` and the
snapshot. -/
lemma deal_chip (t t' : Table) (now : ℚ)
    (h : dealFlop t now = .ok t' ∨ dealTurn t now = .ok t' ∨
      dealRiver t now = .ok t') :
    chipTotal t' = chipTotal t ∧ t'.handStartStacks = t.handStartStacks := by
  rcases h with h | h | h
  · unfold dealFlop at h
    split at h
    · simp at h
    · obtain ⟨⟨c₁, d₁⟩, h₁, h⟩ := exceptBind_ok _ _ _ h
      obtain ⟨⟨c₂, d₂⟩, h₂, h⟩ := exceptBind_ok _ _ _ h
      obtain ⟨⟨c₃, d₃⟩, h₃, h⟩ := exceptBind_ok _ _ _ h
      have h' : resetCommittedForNewStreet
          { t with deck := d₃, board := t.board ++ [c₁, c₂, c₃], street := Street.flop }
          now = Except.ok t' := h
      have hr := resetCommitted_chip _ t' now h'
      exact hr
  · unfold dealTurn at h
    split at h
    · simp at h
    · obtain ⟨⟨c, d₁⟩, h₁, h⟩ := exceptBind_ok _ _ _ h
      have h' : resetCommittedForNewStreet
          { t with deck := d₁, board := t.board ++ [c], street := Street.turn }
          now = Except.ok t' := h
      have hr := resetCommitted_chip _ t' now h'
      exact hr
  · unfold dealRiver at h
    split at h
    · simp at h
    · obtain ⟨⟨c, d₁⟩, h₁, h⟩ := exceptBind_ok _ _ _ h
      have h' : resetCommittedForNewStreet
          { t with deck := d₁, board := t.board ++ [c], street := Street.river }
          now = Except.ok t' := h
      have hr := resetCommitted_chip _ t' now h'
      exact hr

end Poker

namespace Poker

/-! ## C1: chip conservation across a hand -/

lemma enumFrom_fst_lt {α : Type} :
    ∀ (xs : List α) (n : Nat), ∀ ip ∈ enumFrom n xs, ip.1 < n + xs.length := by
  intro xs
  induction xs with
  | nil => intro n ip h; cases h
  | cons x xs ih =>
    intro n ip h
    simp only [enumFrom, List.mem_cons] at h
    rcases h with h | h
    · subst h
      simp only [List.length_cons]
      omega
    · have := ih (n + 1) ip h
      simp only [List.length_cons]
      omega

lemma determineWinner_bound (N : Nat) (board : List Card) :
    ∀ (l : List (Nat × Player)) (acc res : List Nat × Option (List Nat)),
      (∀ ip ∈ l, ip.1 < N) → (∀ i ∈ acc.1, i < N) →
      l.foldlM
        (fun (acc : List Nat × Option (List Nat)) ip => do
          let (rank, _) ← bestHand (ip.2.holeCards ++ board)
          match acc.2 with
          | none => Except.ok ([ip.1], some rank)
          | some best =>
            if rankLt best rank then Except.ok ([ip.1], some rank)
            else if rank = best then Except.ok (acc.1 ++ [ip.1], some best)
            else Except.ok acc) acc = Except.ok res →
      ∀ i ∈ res.1, i < N := by
  intro l
  induction l with
  | nil =>
    intro acc res _ hacc h
    simp only [List.foldlM_nil] at h
    simp only [pure, Except.pure, Except.ok.injEq] at h
    subst h
    exact hacc
  | cons x xs ih =>
    intro acc res hl hacc h
    simp only [List.foldlM_cons] at h
    obtain ⟨z, hz, h⟩ := exceptBind_ok _ _ _ h
    refine ih z res (fun ip hip => hl ip (List.mem_cons_of_mem _ hip)) ?_ h
    obtain ⟨⟨rank, bh⟩, hbh, hz⟩ := exceptBind_ok _ _ _ hz
    dsimp only at hz
    intro i hi
    rcases hacc2 : acc.2 with _ | best
    · rw [hacc2] at hz
      simp only [Except.ok.injEq] at hz
      rw [← hz] at hi
      simp only [List.mem_singleton] at hi
      subst hi
      exact hl x (List.mem_cons_self _ _)
    · rw [hacc2] at hz
      have hz' : (if rankLt best rank then
            (Except.ok ([x.1], some rank) :
              Except String (List Nat × Option (List Nat)))
          else if rank = best then Except.ok (acc.1 ++ [x.1], some best)
          else Except.ok acc) = Except.ok z := hz
      split at hz'
      · simp only [Except.ok.injEq] at hz'
        rw [← hz'] at hi
        simp only [List.mem_singleton] at hi
        subst hi
        exact hl x (List.mem_cons_self _ _)
      · split at hz'
        · simp only [Except.ok.injEq] at hz'
          rw [← hz'] at hi
          simp only [List.mem_append, List.mem_singleton] at hi
          rcases hi with hi | hi
          · exact hacc i hi
          · subst hi
            exact hl x (List.mem_cons_self _ _)
        · simp only [Except.ok.injEq] at hz'
          rw [← hz'] at hi
          exact hacc i hi

lemma length_addStackAt (share : ℚ) :
    ∀ (ps : List Player) (i : Nat), (addStackAt share ps i).length = ps.length := by
  intro ps
  induction ps with
  | nil => intro i; rfl
  | cons p rest ih =>
    intro i
    cases i with
    | zero => rfl
    | succ j => simp only [addStackAt, List.length_cons, ih]

lemma sum_addStackAt (share : ℚ) :
    ∀ (ps : List Player) (i : Nat), i < ps.length →
      sumStacks (addStackAt share ps i) = sumStacks ps + share := by
  intro ps
  induction ps with
  | nil => intro i hi; simp at hi
  | cons p rest ih =>
    intro i hi
    cases i with
    | zero =>
      simp only [addStackAt, sumStacks, List.map_cons, List.sum_cons]
      ring
    | succ j =>
      simp only [addStackAt, sumStacks, List.map_cons, List.sum_cons]
      have hj : j < rest.length := by
        simp only [List.length_cons] at hi
        omega
      have := ih j hj
      simp only [sumStacks] at this
      rw [this]
      ring

lemma sum_foldl_addStackAt (share : ℚ) :
    ∀ (ws : List Nat) (ps : List Player), (∀ i ∈ ws, i < ps.length) →
      sumStacks (ws.foldl (addStackAt share) ps)
        = sumStacks ps + ws.length * share := by
  intro ws
  induction ws with
  | nil =>
    intro ps _
    simp [sumStacks]
  | cons w ws ih =>
    intro ps hws
    simp only [List.foldl_cons, List.length_cons]
    have hb : ∀ i ∈ ws, i < (addStackAt share ps w).length := by
      intro i hi
      rw [length_addStackAt]
      exact hws i (List.mem_cons_of_mem _ hi)
    rw [ih (addStackAt share ps w) hb,
        sum_addStackAt share ps w (hws w (List.mem_cons_self _ _))]
    push_cast
    ring

/-- `Table.showdown` pays the whole pot back into stacks: `pot + Σ stacks`
and the snapshot are preserved. -/
lemma showdown_chip (t : Table) (ws : List Nat) (t' : Table)
    (h : showdown t = .ok (ws, t')) :
    chipTotal t' = chipTotal t ∧ t'.handStartStacks = t.handStartStacks := by
  unfold showdown at h
  obtain ⟨⟨winners, best⟩, hdw, h⟩ := exceptBind_ok _ _ _ h
  dsimp only at h
  split at h
  · rename_i hcond
    simp only [Except.ok.injEq, Prod.mk.injEq] at h
    obtain ⟨hw, ht⟩ := h
    subst ht
    have hbound : ∀ i ∈ winners, i < t.players.length := by
      unfold determineWinner at hdw
      dsimp only at hdw
      have hmem : ∀ ip ∈ (enumFrom 0 t.players).filter
          (fun ip => ip.2.inHand ∧ ¬ ip.2.hasFolded), ip.1 < t.players.length := by
        intro ip hip
        have h1 : ip ∈ enumFrom 0 t.players := List.mem_of_mem_filter hip
        have h2 := enumFrom_fst_lt t.players 0 ip h1
        simpa using h2
      exact determineWinner_bound t.players.length t.board _ _ _
        hmem (by intro i hi; simp at hi) hdw
    have hlen0 : winners.length ≠ 0 := by
      intro hc
      exact hcond.1 (List.length_eq_zero.mp hc)
    have hne : ((winners.length : ℚ)) ≠ 0 := Nat.cast_ne_zero.mpr hlen0
    refine ⟨?_, rfl⟩
    simp only [chipTotal]
    rw [sum_foldl_addStackAt (t.pot / (winners.length : ℚ)) winners t.players hbound]
    have hmul : ((winners.length : ℚ)) * (t.pot / (winners.length : ℚ)) = t.pot := by
      field_simp
    rw [hmul]
    ring
  · simp only [Except.ok.injEq, Prod.mk.injEq] at h
    obtain ⟨hw, ht⟩ := h
    subst ht
    exact ⟨rfl, rfl⟩

/-- One engine transition inside a hand: a betting action (`player_action`
routes to `_apply_action`), a street deal, or the showdown payout. -/
inductive HandStep : Table → Table → Prop
  | act (pid : Nat) (action : String) (amount : Option ℚ) (now : ℚ) {t t' : Table} :
      applyAction t pid action amount now = Except.ok t' → HandStep t t'
  | flop (now : ℚ) {t t' : Table} :
      dealFlop t now = Except.ok t' → HandStep t t'
  | turn (now : ℚ) {t t' : Table} :
      dealTurn t now = Except.ok t' → HandStep t t'
  | river (now : ℚ) {t t' : Table} :
      dealRiver t now = Except.ok t' → HandStep t t'
  | showdownPay (ws : List Nat) {t t' : Table} :
      showdown t = Except.ok (ws, t') → HandStep t t'

lemma handStep_chip {t t' : Table} (h : HandStep t t') :
    chipTotal t' = chipTotal t ∧ t'.handStartStacks = t.handStartStacks := by
  cases h with
  | act pid action amount now ha => exact applyAction_chip _ _ _ _ _ _ ha
  | flop now ha => exact deal_chip _ _ _ (Or.inl ha)
  | turn now ha => exact deal_chip _ _ _ (Or.inr (Or.inl ha))
  | river now ha => exact deal_chip _ _ _ (Or.inr (Or.inr ha))
  | showdownPay ws ha => exact showdown_chip _ _ _ ha

/-- C1 (amended).  After `start_new_hand` on a table whose seated players
have distinct ids, every sequence of engine transitions within the hand
(betting actions, street deals, showdown payout) keeps
`pot + Σ player.stack` equal to the sum of the `hand_start_stacks`
snapshot.  The claim's quantity `pot + Σ stack + Σ committed` is not the
conserved one: `_post_blind` and `_apply_action` move chips into the pot
at commit time while also recording them in `committed`, so committed
chips are counted twice by the claim's formula. -/
theorem chip_conservation (t t₀ tn : Table) (deck : List Card) (now : ℚ)
    (hnd : (t.players.map (·.id)).Nodup)
    (h0 : startNewHand t deck now = .ok t₀)
    (hsteps : Relation.ReflTransGen HandStep t₀ tn) :
    chipTotal tn = snapshotSum tn := by
  have hbase := startNewHand_chip t deck now t₀ hnd h0
  induction hsteps with
  | refl => exact hbase
  | tail hab hstep ih =>
    have hc := handStep_chip hstep
    rw [hc.1, ih]
    simp only [snapshotSum, hc.2]

/-- C1 counterexample: immediately after `start_new_hand` deals the fresh
three-player 1/2 hand (blinds posted, no further action), the claim's
quantity `pot + Σ stack + Σ committed` is 303 while the snapshotted
starting stacks sum to 300: the 3 blind chips sit both in the pot and in
`committed`. -/
theorem chip_not_conserved_with_committed :
    chipReported handThree = 303 ∧ snapshotSum handThree = 300 := by
  refine ⟨by with_unfolding_all decide, by with_unfolding_all decide⟩

/-- Witness: the three-player fixture satisfies every hypothesis of
`chip_conservation`, with a one-step action chain (Charlie opens to 6). -/
theorem chip_conservation_witness :
    (exTable3.players.map (·.id)).Nodup ∧
    startNewHand exTable3 fullDeck 0 = .ok handThree ∧
    Relation.ReflTransGen HandStep handThree handSix ∧
    chipTotal handSix = snapshotSum handSix := by
  have h1 : (exTable3.players.map (·.id)).Nodup := by with_unfolding_all decide
  have h2 : startNewHand exTable3 fullDeck 0 = .ok handThree :=
    eq_ok_of_isOk (by with_unfolding_all decide)
  have h3 : applyAction handThree 3 "raise_to" (some 6) 0 = .ok handSix :=
    eq_ok_of_isOk (by with_unfolding_all decide)
  have hstep : Relation.ReflTransGen HandStep handThree handSix :=
    Relation.ReflTransGen.single (HandStep.act 3 "raise_to" (some 6) 0 h3)
  exact ⟨h1, h2, hstep,
    chip_conservation exTable3 handThree handSix fullDeck 0 h1 h2 hstep⟩

end Poker

namespace Poker

/-! ## C7: leave during a hand is deferred and settled after -/

/-- Pair extractor for concrete `remove_player_by_user` runs. -/
def okPairD (r : Except String (Player × Table)) : Player × Table :=
  match r with
  | .ok v => v
  | .error _ => (defaultPlayer, {})

/-- Success test for `remove_player_by_user` results. -/
def isOkPair (r : Except String (Player × Table)) : Bool :=
  match r with
  | .ok _ => true
  | .error _ => false

lemma eq_okPair_of_isOk {r : Except String (Player × Table)}
    (h : isOkPair r = true) : r = .ok (okPairD r) := by
  cases r with
  | ok v => rfl
  | error e => simp [isOkPair] at h

/-- C7 (amended).  Leave during an active hand is deferred: the endpoint
answers `pending = true` with no returned amount and the engine state is
untouched except for recording the user in `pending_leave_user_ids`.
After the hand finalizes, `_process_pending_leavers` removes the player,
credits the exact remaining stack to the wallet, and closes the open
session with `cash_out = int(round(stack))` — the rounded integer, not
the stack itself (see `leave_cash_out_rounded`). -/
theorem deferred_leave (w : World) (tableId uid : Nat) (player : Player)
    (hfind : w.engine.players.find? (fun p => p.userId = some uid) = some player)
    (hactive : w.engine.street ≠ Street.prehand ∧
      w.engine.street ≠ Street.showdownSt ∧ w.engine.nextToActSeat ≠ none) :
    (leaveTable w tableId uid = .ok
      ({ tableId := tableId, seat := player.seat, returnedAmount := none,
         pending := true },
       { w with engine := { w.engine with pendingLeaveUserIds :=
          if w.engine.pendingLeaveUserIds.contains uid then
            w.engine.pendingLeaveUserIds
          else w.engine.pendingLeaveUserIds ++ [uid] } })) ∧
    (∀ (w' : World) (removed : Player) (engine' : Table),
      w'.engine.pendingLeaveUserIds = [uid] →
      removePlayerByUser w'.engine uid = .ok (removed, engine') →
      walletLookup w'.wallets uid ≠ none →
      processPendingLeavers tableId w' =
        { engine := { engine' with
            pendingLeaveUserIds := engine'.pendingLeaveUserIds.erase uid },
          wallets := walletCredit w'.wallets uid removed.stack,
          sessions := finalizeSession w'.sessions tableId uid removed.stack }) := by
  constructor
  · have hne : w.engine.players.isEmpty = false := by
      cases hps : w.engine.players with
      | nil => rw [hps] at hfind; simp at hfind
      | cons a l => rfl
    unfold leaveTable
    rw [hne]
    simp only [Bool.false_eq_true, if_false, hfind]
    rw [if_pos hactive]
  · intro w' removed engine' hpend hrem hw
    unfold processPendingLeavers
    rw [hpend]
    simp only [List.isEmpty_cons, List.foldl_cons, List.foldl_nil, if_false]
    unfold processLeaver
    rw [hrem]
    rcases hwl : walletLookup w'.wallets uid with _ | bal
    · exact absurd hwl hw
    · rfl

end Poker

namespace Poker

/-- Uma (user 7) and Vic (user 8) with 100 chips each. -/
def exTableU : Table :=
  seatPlayer (seatPlayer {} "Uma" 100 (some 7)) "Vic" 100 (some 8)

/-- The heads-up hand between Uma and Vic, freshly dealt. -/
def handU : Table := okTableD (startNewHand exTableU fullDeck 0)

/-- World state mid-hand: Uma and Vic in a live hand, both with wallets
and Uma with an open 100-chip session on table 5. -/
def worldU : World :=
  { engine := handU,
    wallets := [(7, 50), (8, 60)],
    sessions := [{ tableId := 5, userId := 7, buyIn := 100 }] }

/-- The engine player record the leave flow finds for Uma. -/
def umaP : Player :=
  (worldU.engine.players.find? (fun p => p.userId = some 7)).getD defaultPlayer

/-- World state after a hand has finalized, with Dana (user 7,
stack 5/2 left) the sole pending leaver of table 5. -/
def leaveWorld : World :=
  { engine := { seatPlayer (seatPlayer {} "Dana" (5/2) (some 7)) "Erin" 100 (some 8) with
      pendingLeaveUserIds := [7] },
    wallets := [(7, 50), (8, 60)],
    sessions := [{ tableId := 5, userId := 7, buyIn := 10 }] }

/-- Dana's removed player record. -/
def danaRemoved : Player := (okPairD (removePlayerByUser leaveWorld.engine 7)).1

/-- The engine after Dana stands up. -/
def engineAfterDana : Table := (okPairD (removePlayerByUser leaveWorld.engine 7)).2

/-- C7 counterexample: Dana leaves with a remaining stack of 5/2 chips.
Her wallet is credited the exact 5/2 (50 becomes 105/2), but the session
closes with `cash_out = int(round(5/2)) = 2` — not the stack itself as
the claim states (2 ≠ 5/2; the SQL column is an integer and Python's
banker's rounding rounds 2.5 down to 2). -/
theorem leave_cash_out_rounded :
    danaRemoved.stack = 5 / 2 ∧
    walletLookup (processPendingLeavers 5 leaveWorld).wallets 7 = some (105 / 2) ∧
    (processPendingLeavers 5 leaveWorld).sessions =
      [{ tableId := 5, userId := 7, buyIn := 10, cashOut := some 2,
         profitLoss := some (-8), closed := true }] ∧
    ((2 : ℚ) ≠ 5 / 2) := by
  refine ⟨by with_unfolding_all decide, by with_unfolding_all decide,
    by with_unfolding_all decide, by norm_num⟩

/-- Witness for `deferred_leave`: Uma leaves mid-hand (deferral recorded),
and with Dana the sole pending leaver after a hand the settlement equation
is exercised concretely. -/
theorem deferred_leave_witness :
    (worldU.engine.players.find? (fun p => p.userId = some 7) = some umaP ∧
     leaveTable worldU 5 7 = .ok
       ({ tableId := 5, seat := umaP.seat, returnedAmount := none,
          pending := true },
        { worldU with engine := { worldU.engine with pendingLeaveUserIds :=
           if worldU.engine.pendingLeaveUserIds.contains 7 then
             worldU.engine.pendingLeaveUserIds
           else worldU.engine.pendingLeaveUserIds ++ [7] } })) ∧
    (leaveWorld.engine.pendingLeaveUserIds = [7] ∧
     processPendingLeavers 5 leaveWorld =
       { engine := { engineAfterDana with
           pendingLeaveUserIds := engineAfterDana.pendingLeaveUserIds.erase 7 },
         wallets := walletCredit leaveWorld.wallets 7 danaRemoved.stack,
         sessions := finalizeSession leaveWorld.sessions 5 7 danaRemoved.stack }) := by
  have hfind : worldU.engine.players.find? (fun p => p.userId = some 7) = some umaP := by
    with_unfolding_all decide
  have hact : worldU.engine.street ≠ Street.prehand ∧
      worldU.engine.street ≠ Street.showdownSt ∧
      worldU.engine.nextToActSeat ≠ none := by
    with_unfolding_all decide
  have hpend : leaveWorld.engine.pendingLeaveUserIds = [7] := by
    with_unfolding_all decide
  have hrem : removePlayerByUser leaveWorld.engine 7 =
      .ok (danaRemoved, engineAfterDana) :=
    eq_okPair_of_isOk (by with_unfolding_all decide)
  have hw : walletLookup leaveWorld.wallets 7 ≠ none := by
    with_unfolding_all decide
  have hmain := deferred_leave worldU 5 7 umaP hfind hact
  exact ⟨⟨hfind, hmain.1⟩,
    ⟨hpend, hmain.2 leaveWorld danaRemoved engineAfterDana hpend hrem hw⟩⟩

end Poker
